import Mathlib

/-!
# maibot-telegram-adapter: envelope model, correlation table, client, filter

A shallow embedding of `internal/maibot/message.go`,
`internal/response_manager/response_manager.go`, `internal/maibot/maibot.go`
and `internal/telegram/message_filter.go`.

Conventions of the embedding

* A Go string is a sequence of bytes. It is modelled the way `encoding/json`
  reads it, as the sequence of its UTF-8 steps: each step is a character with a
  valid encoding or a single byte that belongs to none (`GoString`). A JSON
  string is a sequence of characters (`String`).
* A `float64` is a finite value, given by the rational number it denotes, an
  infinity, or NaN (`Float64`).
* The text layer of `encoding/json` (printing a value as JSON text and
  scanning it back) is not part of the repository.  A wire payload is
  identified with the result of scanning it: `none` for text that is not
  well-formed JSON, `some j` for the JSON value `j` it denotes.  A number
  literal is identified with what `strconv.ParseFloat` returns on it: the
  nearest `float64`, or a range error.  What is modelled of `encoding/json` is
  the part that depends on the repository's types: struct tags, `omitempty`,
  pointer fields, `interface{}` fields, values that cannot be encoded.  The
  limit of 10000 levels that the scanner puts on the nesting of a text is part
  of the text layer and is not modelled.
* A Go `map[string]interface{}` is the list of its entries in ascending key
  order, which is the order in which `encoding/json` emits them.
-/

namespace Maibot

/-! ## Go strings and floating point numbers -/

/-- One step of reading a Go string as UTF-8: a character with a valid
encoding, or a byte that is part of no valid encoding. -/
inductive GoChar where
  | rune (c : Char)
  | invalid (b : ℕ)
deriving DecidableEq

/-- A Go string, as the sequence of its UTF-8 steps. -/
abbrev GoString := List GoChar

/-- The Go string that holds the UTF-8 encoding of a sequence of characters. -/
def GoString.ofString (s : String) : GoString := s.data.map GoChar.rune

instance : Coe String GoString := ⟨GoString.ofString⟩

/-- The character `encoding/json` writes for one step of a Go string: the
character itself, or U+FFFD for a byte that is not valid UTF-8. -/
def GoChar.toValid : GoChar → Char
  | .rune c => c
  | .invalid _ => Char.ofNat 0xFFFD

/-- The JSON string `encoding/json` writes for a Go string: every byte that is
not valid UTF-8 is replaced by U+FFFD. -/
def GoString.toValid (g : GoString) : String := String.mk (g.map GoChar.toValid)

/-- Whether the step is a validly encoded character. -/
def GoChar.isRune : GoChar → Bool
  | .rune _ => true
  | .invalid _ => false

/-- Whether the Go string is valid UTF-8. -/
def GoString.isValid (g : GoString) : Bool := g.all GoChar.isRune

/-- A `float64`: a finite value, given by the rational number it denotes
(negative zero being identified with zero, as `==` does), an infinity, or NaN. -/
inductive Float64 where
  | finite (value : ℚ)
  | posInf
  | negInf
  | nan
deriving DecidableEq

/-- A JSON number literal, identified with what `strconv.ParseFloat` returns
on it: the `float64` nearest to the literal, or the range error of a literal
too large for a `float64`. -/
inductive Number where
  | float (value : ℚ)
  | outOfRange
deriving DecidableEq

/-! ## JSON values and dynamic Go values -/

/-- A JSON document, as scanned from well-formed JSON text. Objects keep their
members in textual order, duplicates included. -/
inductive JSON where
  | null
  | bool (b : Bool)
  | num (n : Number)
  | str (s : String)
  | arr (xs : List JSON)
  | obj (kvs : List (String × JSON))

/-- The dynamic values held by the `interface{}` fields of this package: the
values `encoding/json` produces when it decodes into an `interface{}`
(`nil`, `bool`, `float64`, `string`, `[]interface{}`,
`map[string]interface{}`), the `[]MessageSegment` stored by `NewSegList`
(a nil slice, or a list of segments each given by its `Type` and `Data`), and
the values of every other type. The code tells the latter apart from the former
by its type assertions only and otherwise hands them to `json.Marshal`, so that
they are given by what `json.Marshal` does on them: it returns an error
(`unsupported`: a channel, a function, a complex number), or it emits a JSON
value (`other`: an `int`, a struct, a `[]string`, a `json.Number`, a
`json.RawMessage`). -/
inductive GoValue where
  | nil
  | bool (b : Bool)
  | float64 (n : Float64)
  | string (s : GoString)
  | slice (xs : List GoValue)
  | map (kvs : List (GoString × GoValue))
  | nilSegments
  | segments (xs : List (GoString × GoValue))
  | unsupported
  | other (encoding : JSON)

/-! ## The data model of `message.go` -/

/-- MessageSegment represents a message segment. -/
structure MessageSegment where
  Type_ : GoString
  Data : GoValue

/-- UserInfo represents user information. -/
structure UserInfo where
  Platform : GoString
  UserID : GoString
  UserNickname : GoString
  UserCardname : GoString
deriving DecidableEq

/-- GroupInfo represents group information. -/
structure GroupInfo where
  Platform : GoString
  GroupID : GoString
  GroupName : GoString
deriving DecidableEq

/-- FormatInfo represents supported message formats. -/
structure FormatInfo where
  ContentFormat : List GoString
  AcceptFormat : List GoString
deriving DecidableEq

/-- TemplateInfo represents template information. -/
structure TemplateInfo where
  TemplateItems : List (GoString × GoValue)
  TemplateName : GoString
  TemplateDefault : Bool

/-- MessageInfo represents message metadata. A nil pointer is `none`. -/
structure MessageInfo where
  Platform : GoString
  MessageID : GoString
  Time : Float64
  UserInfo : Option UserInfo
  GroupInfo : Option GroupInfo
  FormatInfo : Option FormatInfo
  TemplateInfo : Option TemplateInfo
  AdditionalConfig : List (GoString × GoValue)

/-- MessageBase represents the complete message structure. -/
structure MessageBase where
  MessageInfo : MessageInfo
  MessageSegment : MessageSegment
  RawMessage : GoString

/-- The pair form in which a segment is stored inside a `[]MessageSegment`. -/
def MessageSegment.toPair (s : MessageSegment) : GoString × GoValue := (s.Type_, s.Data)

/-- The segment stored as a pair inside a `[]MessageSegment`. -/
def MessageSegment.ofPair (p : GoString × GoValue) : MessageSegment := ⟨p.1, p.2⟩

/-! ## `json.Marshal` on the types of the package -/

/-- The error of a `float64` that is not finite; the text that names the value
is left out. -/
def unsupportedValue : String := "json: unsupported value"

/-- The error of a value whose type cannot be encoded; the text that names the
type is left out. -/
def unsupportedType : String := "json: unsupported type"

mutual
/-- The JSON value `json.Marshal` emits for a dynamic value, or its error. The
number emitted for a finite `float64` is a literal that parses back to it. -/
def marshalValue : GoValue → Except String JSON
  | .nil => .ok .null
  | .bool b => .ok (.bool b)
  | .float64 (.finite q) => .ok (.num (.float q))
  | .float64 .posInf => .error unsupportedValue
  | .float64 .negInf => .error unsupportedValue
  | .float64 .nan => .error unsupportedValue
  | .string s => .ok (.str (GoString.toValid s))
  | .slice xs =>
    match marshalValues xs with
    | .ok js => .ok (.arr js)
    | .error e => .error e
  | .map kvs =>
    match marshalEntries kvs with
    | .ok members => .ok (.obj members)
    | .error e => .error e
  | .nilSegments => .ok .null
  | .segments xs =>
    match marshalSegmentPairs xs with
    | .ok js => .ok (.arr js)
    | .error e => .error e
  | .unsupported => .error unsupportedType
  | .other j => .ok j
/-- Elements of a `[]interface{}`. -/
def marshalValues : List GoValue → Except String (List JSON)
  | [] => .ok []
  | x :: xs =>
    match marshalValue x with
    | .error e => .error e
    | .ok j =>
      match marshalValues xs with
      | .error e => .error e
      | .ok js => .ok (j :: js)
/-- Entries of a `map[string]interface{}`. -/
def marshalEntries : List (GoString × GoValue) → Except String (List (String × JSON))
  | [] => .ok []
  | (k, v) :: kvs =>
    match marshalValue v with
    | .error e => .error e
    | .ok j =>
      match marshalEntries kvs with
      | .error e => .error e
      | .ok members => .ok ((GoString.toValid k, j) :: members)
/-- Elements of a `[]MessageSegment`: each a struct with the tags
`json:"type"` and `json:"data"`. -/
def marshalSegmentPairs : List (GoString × GoValue) → Except String (List JSON)
  | [] => .ok []
  | (t, d) :: xs =>
    match marshalValue d with
    | .error e => .error e
    | .ok j =>
      match marshalSegmentPairs xs with
      | .error e => .error e
      | .ok js => .ok (.obj [("type", .str (GoString.toValid t)), ("data", j)] :: js)
end

/-- A string field tagged `omitempty`: absent when empty. -/
def omitEmptyString (key : String) (s : GoString) : List (String × JSON) :=
  if s = [] then [] else [(key, .str (GoString.toValid s))]

/-- A `[]string` field tagged `omitempty`: absent when of length zero. -/
def omitEmptyStrings (key : String) (xs : List GoString) : List (String × JSON) :=
  if xs = [] then [] else [(key, .arr (xs.map (fun s => JSON.str (GoString.toValid s))))]

/-- A `map[string]interface{}` field tagged `omitempty`: absent when empty. -/
def omitEmptyMap (key : String) (m : List (GoString × GoValue)) :
    Except String (List (String × JSON)) :=
  match m with
  | [] => .ok []
  | _ :: _ =>
    match marshalEntries m with
    | .ok members => .ok [(key, .obj members)]
    | .error e => .error e

/-- A `float64` field tagged `omitempty`: absent when equal to zero; a value
that is not finite cannot be encoded. -/
def omitZeroFloat (key : String) (t : Float64) : Except String (List (String × JSON)) :=
  match t with
  | .finite q => if q = 0 then .ok [] else .ok [(key, .num (.float q))]
  | _ => .error unsupportedValue

/-- A pointer field tagged `omitempty`: absent when nil. -/
def omitNil {α : Type} (key : String) (enc : α → JSON) (p : Option α) : List (String × JSON) :=
  match p with
  | none => []
  | some x => [(key, enc x)]

/-- Encoding of `MessageSegment`. -/
def marshalMessageSegment (s : MessageSegment) : Except String JSON :=
  match marshalValue s.Data with
  | .ok data => .ok (.obj [("type", .str (GoString.toValid s.Type_)), ("data", data)])
  | .error e => .error e

/-- Encoding of `UserInfo`. -/
def marshalUserInfo (u : UserInfo) : JSON :=
  .obj ([("platform", .str (GoString.toValid u.Platform)),
         ("user_id", .str (GoString.toValid u.UserID))]
    ++ omitEmptyString "user_nickname" u.UserNickname
    ++ omitEmptyString "user_cardname" u.UserCardname)

/-- Encoding of `GroupInfo`. -/
def marshalGroupInfo (g : GroupInfo) : JSON :=
  .obj ([("platform", .str (GoString.toValid g.Platform)),
         ("group_id", .str (GoString.toValid g.GroupID))]
    ++ omitEmptyString "group_name" g.GroupName)

/-- Encoding of `FormatInfo`. -/
def marshalFormatInfo (f : FormatInfo) : JSON :=
  .obj (omitEmptyStrings "content_format" f.ContentFormat
    ++ omitEmptyStrings "accept_format" f.AcceptFormat)

/-- Encoding of `TemplateInfo`. -/
def marshalTemplateInfo (t : TemplateInfo) : Except String JSON :=
  match omitEmptyMap "template_items" t.TemplateItems with
  | .error e => .error e
  | .ok items =>
    .ok (.obj (items
      ++ omitEmptyString "template_name" t.TemplateName
      ++ (if t.TemplateDefault then [("template_default", .bool true)] else [])))

/-- The pointer field `template_info`, tagged `omitempty`. -/
def omitNilTemplateInfo (p : Option TemplateInfo) : Except String (List (String × JSON)) :=
  match p with
  | none => .ok []
  | some t =>
    match marshalTemplateInfo t with
    | .error e => .error e
    | .ok j => .ok [("template_info", j)]

/-- Encoding of `MessageInfo`. -/
def marshalMessageInfo (mi : MessageInfo) : Except String JSON :=
  match omitZeroFloat "time" mi.Time with
  | .error e => .error e
  | .ok time =>
    match omitNilTemplateInfo mi.TemplateInfo with
    | .error e => .error e
    | .ok template =>
      match omitEmptyMap "additional_config" mi.AdditionalConfig with
      | .error e => .error e
      | .ok config =>
        .ok (.obj ([("platform", .str (GoString.toValid mi.Platform))]
          ++ omitEmptyString "message_id" mi.MessageID
          ++ time
          ++ omitNil "user_info" marshalUserInfo mi.UserInfo
          ++ omitNil "group_info" marshalGroupInfo mi.GroupInfo
          ++ omitNil "format_info" marshalFormatInfo mi.FormatInfo
          ++ template
          ++ config))

/-- Encoding of `MessageBase`. -/
def marshalMessageBase (mb : MessageBase) : Except String JSON :=
  match marshalMessageInfo mb.MessageInfo with
  | .error e => .error e
  | .ok info =>
    match marshalMessageSegment mb.MessageSegment with
    | .error e => .error e
    | .ok segment =>
      .ok (.obj ([("message_info", info), ("message_segment", segment)]
        ++ omitEmptyString "raw_message" mb.RawMessage))

/-- The call `json.Marshal(v)`: the encoding of the value, or the error of a
`float64` that is not finite or of a value whose type cannot be encoded. -/
def jsonMarshal {α : Type} (enc : α → Except String JSON) (v : α) : Except String JSON :=
  enc v

/-- The wire form of a message: `none` is text that is not well-formed JSON,
`some j` is text denoting the JSON value `j`. -/
abbrev Payload := Option JSON

/-! ## `json.Unmarshal` on the types of the package -/

/-- Case folding of one character of an object key, as far as it can meet an
ASCII field name: ASCII letters fold to upper case, U+017F to `S`, U+212A to
`K`. -/
def foldRune (c : Char) : Char :=
  if 'a' ≤ c ∧ c ≤ 'z' then Char.ofNat (c.toNat - 32)
  else if c = Char.ofNat 0x17F then 'S'
  else if c = Char.ofNat 0x212A then 'K'
  else c

/-- The folded form of a key, compared when no field matches exactly. -/
def foldName (s : String) : List Char := s.data.map foldRune

/-- The field whose JSON name is exactly `key`. -/
def exactField : List String → String → Option String
  | [], _ => none
  | f :: fs, key => if f = key then some f else exactField fs key

/-- The first field whose JSON name equals `key` up to case folding. -/
def foldedField : List String → String → Option String
  | [], _ => none
  | f :: fs, key => if foldName f = foldName key then some f else foldedField fs key

/-- Field lookup of the struct decoder: an exact match is preferred, a
case-insensitive match is accepted, any other key is ignored. -/
def findField (fields : List String) (key : String) : Option String :=
  match exactField fields key with
  | some f => some f
  | none => foldedField fields key

/-- The error of a JSON value that does not fit the Go type it is decoded into. -/
def typeError : String := "json: cannot unmarshal value into Go value"

/-- The error of a number literal too large for a `float64`. -/
def rangeError : String := "json: cannot unmarshal number: value out of range"

/-- Decoding into a `string`: `null` leaves the field as it is. -/
def decodeString (cur : GoString) : JSON → Except String GoString
  | .null => .ok cur
  | .str s => .ok (GoString.ofString s)
  | _ => .error typeError

/-- Decoding into a `bool`. -/
def decodeBool (cur : Bool) : JSON → Except String Bool
  | .null => .ok cur
  | .bool b => .ok b
  | _ => .error typeError

/-- Decoding into a `float64`: the literal is parsed by `strconv.ParseFloat`,
whose range error is the error of the decoder. -/
def decodeFloat64 (cur : Float64) : JSON → Except String Float64
  | .null => .ok cur
  | .num (.float q) => .ok (.finite q)
  | .num .outOfRange => .error rangeError
  | _ => .error typeError

/-- Elements of a JSON array decoded into a `[]string`. -/
def decodeStrings : List JSON → Except String (List GoString)
  | [] => .ok []
  | v :: vs =>
    match decodeString [] v with
    | .error e => .error e
    | .ok s =>
      match decodeStrings vs with
      | .error e => .error e
      | .ok ss => .ok (s :: ss)

/-- Decoding into a `[]string`. -/
def decodeStringSlice (_cur : List GoString) : JSON → Except String (List GoString)
  | .null => .ok []
  | .arr vs => decodeStrings vs
  | _ => .error typeError

/-- The rank of a step in the order of keys: characters rank by code point. -/
def GoChar.rank : GoChar → ℕ
  | .rune c => 2 * c.toNat
  | .invalid b => 2 * b + 1

/-- Lexicographic comparison of two Go strings by the rank of their steps. On
strings that are valid UTF-8 this is the comparison by code point, which is
the byte-wise order `<` of Go. -/
def ltChars : List GoChar → List GoChar → Bool
  | _, [] => false
  | [], _ :: _ => true
  | a :: as, b :: bs =>
    if a.rank < b.rank then true
    else if b.rank < a.rank then false
    else ltChars as bs

/-- The order in which the keys of a decoded map are kept. The decoder, which
alone uses it, meets only keys that are valid UTF-8. -/
def keyLt (a b : GoString) : Bool := ltChars a b

/-- The lookup `m[k]` on a Go map: `none` when the key is absent. -/
def mapIndex {α : Type} (m : List (GoString × α)) (k : GoString) : Option α :=
  match m with
  | [] => none
  | (k', v) :: rest => if k = k' then some v else mapIndex rest k

/-- The assignment `m[k] = v` on a map kept in ascending key order. -/
def mapStore {α : Type} (m : List (GoString × α)) (k : GoString) (v : α) :
    List (GoString × α) :=
  match m with
  | [] => [(k, v)]
  | (k', v') :: rest =>
    if k = k' then (k, v) :: rest
    else if keyLt k k' then (k, v) :: (k', v') :: rest
    else (k', v') :: mapStore rest k v

mutual
/-- Decoding into an `interface{}`: a number becomes the `float64` its literal
parses to, and the range error of the literal is the error of the decoder. -/
def decodeInterface : JSON → Except String GoValue
  | .null => .ok .nil
  | .bool b => .ok (.bool b)
  | .num (.float q) => .ok (.float64 (.finite q))
  | .num .outOfRange => .error rangeError
  | .str s => .ok (.string (GoString.ofString s))
  | .arr xs =>
    match decodeInterfaces xs with
    | .ok vs => .ok (.slice vs)
    | .error e => .error e
  | .obj kvs =>
    match decodeEntries kvs [] with
    | .ok m => .ok (.map m)
    | .error e => .error e
/-- Elements of an array decoded into a `[]interface{}`. -/
def decodeInterfaces : List JSON → Except String (List GoValue)
  | [] => .ok []
  | x :: xs =>
    match decodeInterface x with
    | .error e => .error e
    | .ok v =>
      match decodeInterfaces xs with
      | .error e => .error e
      | .ok vs => .ok (v :: vs)
/-- Members of an object stored, in textual order, into a
`map[string]interface{}`. -/
def decodeEntries : List (String × JSON) → List (GoString × GoValue) →
    Except String (List (GoString × GoValue))
  | [], m => .ok m
  | (k, v) :: rest, m =>
    match decodeInterface v with
    | .error e => .error e
    | .ok x => decodeEntries rest (mapStore m (GoString.ofString k) x)
end

/-- Decoding into a `map[string]interface{}` field: `null` sets the nil map,
an object stores its members into the map already there. -/
def decodeMap (cur : List (GoString × GoValue)) :
    JSON → Except String (List (GoString × GoValue))
  | .null => .ok []
  | .obj kvs => decodeEntries kvs cur
  | _ => .error typeError

/-- The members of an object decoded one after the other into a struct. The
decoder of `encoding/json` records the first error of a value that does not fit
and goes on to the end, where it returns that error; its callers here drop the
struct then, so that the model stops at the first error. -/
def decodeFields {α : Type} (step : α → String → JSON → Except String α) :
    List (String × JSON) → α → Except String α
  | [], x => .ok x
  | (k, v) :: rest, x =>
    match step x k v with
    | .ok y => decodeFields step rest y
    | .error e => .error e

/-- Decoding into a struct value: `null` has no effect. -/
def decodeStruct {α : Type} (step : α → String → JSON → Except String α) (cur : α) :
    JSON → Except String α
  | .null => .ok cur
  | .obj kvs => decodeFields step kvs cur
  | _ => .error typeError

/-- Decoding into a pointer to a struct: `null` sets the nil pointer, an object
is decoded into the struct pointed to, allocated when the pointer is nil. -/
def decodePointer {α : Type} (zero : α) (step : α → String → JSON → Except String α)
    (cur : Option α) : JSON → Except String (Option α)
  | .null => .ok none
  | .obj kvs =>
    match decodeFields step kvs (cur.getD zero) with
    | .ok x => .ok (some x)
    | .error e => .error e
  | _ => .error typeError

/-- One member of an object decoded into a `MessageSegment`. -/
def stepMessageSegment (s : MessageSegment) (key : String) (v : JSON) :
    Except String MessageSegment :=
  match findField ["type", "data"] key with
  | some "type" =>
    match decodeString s.Type_ v with
    | .ok t => .ok { s with Type_ := t }
    | .error e => .error e
  | some "data" =>
    match decodeInterface v with
    | .ok d => .ok { s with Data := d }
    | .error e => .error e
  | _ => .ok s

/-- One member of an object decoded into a `UserInfo`. -/
def stepUserInfo (u : UserInfo) (key : String) (v : JSON) : Except String UserInfo :=
  match findField ["platform", "user_id", "user_nickname", "user_cardname"] key with
  | some "platform" =>
    match decodeString u.Platform v with
    | .ok s => .ok { u with Platform := s }
    | .error e => .error e
  | some "user_id" =>
    match decodeString u.UserID v with
    | .ok s => .ok { u with UserID := s }
    | .error e => .error e
  | some "user_nickname" =>
    match decodeString u.UserNickname v with
    | .ok s => .ok { u with UserNickname := s }
    | .error e => .error e
  | some "user_cardname" =>
    match decodeString u.UserCardname v with
    | .ok s => .ok { u with UserCardname := s }
    | .error e => .error e
  | _ => .ok u

/-- One member of an object decoded into a `GroupInfo`. -/
def stepGroupInfo (g : GroupInfo) (key : String) (v : JSON) : Except String GroupInfo :=
  match findField ["platform", "group_id", "group_name"] key with
  | some "platform" =>
    match decodeString g.Platform v with
    | .ok s => .ok { g with Platform := s }
    | .error e => .error e
  | some "group_id" =>
    match decodeString g.GroupID v with
    | .ok s => .ok { g with GroupID := s }
    | .error e => .error e
  | some "group_name" =>
    match decodeString g.GroupName v with
    | .ok s => .ok { g with GroupName := s }
    | .error e => .error e
  | _ => .ok g

/-- One member of an object decoded into a `FormatInfo`. -/
def stepFormatInfo (f : FormatInfo) (key : String) (v : JSON) : Except String FormatInfo :=
  match findField ["content_format", "accept_format"] key with
  | some "content_format" =>
    match decodeStringSlice f.ContentFormat v with
    | .ok xs => .ok { f with ContentFormat := xs }
    | .error e => .error e
  | some "accept_format" =>
    match decodeStringSlice f.AcceptFormat v with
    | .ok xs => .ok { f with AcceptFormat := xs }
    | .error e => .error e
  | _ => .ok f

/-- One member of an object decoded into a `TemplateInfo`. -/
def stepTemplateInfo (t : TemplateInfo) (key : String) (v : JSON) : Except String TemplateInfo :=
  match findField ["template_items", "template_name", "template_default"] key with
  | some "template_items" =>
    match decodeMap t.TemplateItems v with
    | .ok m => .ok { t with TemplateItems := m }
    | .error e => .error e
  | some "template_name" =>
    match decodeString t.TemplateName v with
    | .ok s => .ok { t with TemplateName := s }
    | .error e => .error e
  | some "template_default" =>
    match decodeBool t.TemplateDefault v with
    | .ok b => .ok { t with TemplateDefault := b }
    | .error e => .error e
  | _ => .ok t

/-- The JSON names of the fields of `MessageInfo`. -/
def messageInfoFields : List String :=
  ["platform", "message_id", "time", "user_info", "group_info", "format_info",
   "template_info", "additional_config"]

/-- One member of an object decoded into a `MessageInfo`. -/
def stepMessageInfo (mi : MessageInfo) (key : String) (v : JSON) : Except String MessageInfo :=
  match findField messageInfoFields key with
  | some "platform" =>
    match decodeString mi.Platform v with
    | .ok s => .ok { mi with Platform := s }
    | .error e => .error e
  | some "message_id" =>
    match decodeString mi.MessageID v with
    | .ok s => .ok { mi with MessageID := s }
    | .error e => .error e
  | some "time" =>
    match decodeFloat64 mi.Time v with
    | .ok t => .ok { mi with Time := t }
    | .error e => .error e
  | some "user_info" =>
    match decodePointer ⟨[], [], [], []⟩ stepUserInfo mi.UserInfo v with
    | .ok u => .ok { mi with UserInfo := u }
    | .error e => .error e
  | some "group_info" =>
    match decodePointer ⟨[], [], []⟩ stepGroupInfo mi.GroupInfo v with
    | .ok g => .ok { mi with GroupInfo := g }
    | .error e => .error e
  | some "format_info" =>
    match decodePointer ⟨[], []⟩ stepFormatInfo mi.FormatInfo v with
    | .ok f => .ok { mi with FormatInfo := f }
    | .error e => .error e
  | some "template_info" =>
    match decodePointer ⟨[], [], false⟩ stepTemplateInfo mi.TemplateInfo v with
    | .ok t => .ok { mi with TemplateInfo := t }
    | .error e => .error e
  | some "additional_config" =>
    match decodeMap mi.AdditionalConfig v with
    | .ok m => .ok { mi with AdditionalConfig := m }
    | .error e => .error e
  | _ => .ok mi

/-- One member of an object decoded into a `MessageBase`. -/
def stepMessageBase (mb : MessageBase) (key : String) (v : JSON) : Except String MessageBase :=
  match findField ["message_info", "message_segment", "raw_message"] key with
  | some "message_info" =>
    match decodeStruct stepMessageInfo mb.MessageInfo v with
    | .ok mi => .ok { mb with MessageInfo := mi }
    | .error e => .error e
  | some "message_segment" =>
    match decodeStruct stepMessageSegment mb.MessageSegment v with
    | .ok s => .ok { mb with MessageSegment := s }
    | .error e => .error e
  | some "raw_message" =>
    match decodeString mb.RawMessage v with
    | .ok s => .ok { mb with RawMessage := s }
    | .error e => .error e
  | _ => .ok mb

/-- The value of `var msgSeg MessageSegment`. -/
def zeroMessageSegment : MessageSegment := ⟨[], .nil⟩

/-- The value of `var mb MessageBase`. -/
def zeroMessageBase : MessageBase :=
  ⟨⟨[], [], .finite 0, none, none, none, none, []⟩, zeroMessageSegment, []⟩

/-- The call `json.Unmarshal(data, &x)` on a struct variable holding `cur`:
text that is not well-formed JSON is a syntax error. -/
def jsonUnmarshal {α : Type} (step : α → String → JSON → Except String α) (cur : α) :
    Payload → Except String α
  | none => .error "json: syntax error"
  | some j => decodeStruct step cur j

/-! ## Constructors of `message.go` -/

/-- A Go slice argument: `none` is the nil slice. -/
abbrev Slice (α : Type) := Option (List α)

/-- NewTextSegment creates a text message segment. -/
def NewTextSegment (text : GoString) : MessageSegment := ⟨"text", .string text⟩

/-- NewVoiceSegment creates a wav voice message segment. -/
def NewVoiceSegment (base64Data : GoString) : MessageSegment := ⟨"voice", .string base64Data⟩

/-- NewImageSegment creates an image message segment. -/
def NewImageSegment (base64Data : GoString) : MessageSegment := ⟨"image", .string base64Data⟩

/-- NewEmojiSegment creates an emoji message segment. -/
def NewEmojiSegment (emoji : GoString) : MessageSegment := ⟨"emoji", .string emoji⟩

/-- NewAtSegment creates an @ mention message segment. -/
def NewAtSegment (userID : GoString) : MessageSegment := ⟨"at", .string userID⟩

/-- NewReplySegment creates a reply message segment. -/
def NewReplySegment (messageID : GoString) : MessageSegment := ⟨"reply", .string messageID⟩

/-- NewSegList creates a segment list containing multiple segments: the slice
itself is stored in `Data`. -/
def NewSegList (segments : Slice MessageSegment) : MessageSegment :=
  ⟨"seglist",
    match segments with
    | none => .nilSegments
    | some xs => .segments (xs.map MessageSegment.toPair)⟩

/-- NewMessageBase creates a new MessageBase with the given parameters. The
stamp `now` is the value of
`float64(time.Now().Unix()) + float64(time.Now().Nanosecond())/1e9`. -/
def NewMessageBase (now : ℚ) (platform messageID : GoString) (userInfo : Option UserInfo)
    (groupInfo : Option GroupInfo) (segments : Slice MessageSegment) : MessageBase :=
  let messageInfo : MessageInfo :=
    { Platform := platform
      MessageID := messageID
      Time := .finite now
      UserInfo := userInfo
      GroupInfo := groupInfo
      FormatInfo := none
      TemplateInfo := none
      AdditionalConfig := [] }
  let messageSegment := NewSegList segments
  { MessageInfo := messageInfo, MessageSegment := messageSegment, RawMessage := [] }

/-- NewSimpleTextMessage creates a simple text message. -/
def NewSimpleTextMessage (now : ℚ) (platform messageID userID text : GoString) : MessageBase :=
  let userInfo : UserInfo :=
    { Platform := platform, UserID := userID, UserNickname := [], UserCardname := [] }
  let segments := [NewTextSegment text]
  NewMessageBase now platform messageID (some userInfo) none (some segments)

/-- NewGroupTextMessage creates a group text message. -/
def NewGroupTextMessage (now : ℚ) (platform messageID userID groupID text : GoString) :
    MessageBase :=
  let userInfo : UserInfo :=
    { Platform := platform, UserID := userID, UserNickname := [], UserCardname := [] }
  let groupInfo : GroupInfo := { Platform := platform, GroupID := groupID, GroupName := [] }
  let segments := [NewTextSegment text]
  NewMessageBase now platform messageID (some userInfo) (some groupInfo) (some segments)

/-! ## Encoding, decoding and accessors of `message.go` -/

/-- ToJSON converts MessageBase to JSON string. The error is the one of
`json.Marshal` wrapped in the message of the source; the text of the wrapped
error is left out. -/
def ToJSON (mb : MessageBase) : Except String Payload :=
  match jsonMarshal marshalMessageBase mb with
  | .error _ => .error "failed to marshal message to JSON"
  | .ok data => .ok (some data)

/-- FromJSON creates MessageBase from JSON string. The error is the one of
`json.Unmarshal` wrapped in the message of the source; the text of the wrapped
error is left out. -/
def FromJSON (jsonStr : Payload) : Except String MessageBase :=
  match jsonUnmarshal stepMessageBase zeroMessageBase jsonStr with
  | .error _ => .error "failed to unmarshal JSON to message"
  | .ok mb => .ok mb

/-- The loop of `GetSegments`: each entry is marshalled and unmarshalled into
a fresh `MessageSegment`; an entry for which either step fails is skipped. -/
def collectSegments : List GoValue → List MessageSegment
  | [] => []
  | seg :: rest =>
    match jsonMarshal marshalValue seg with
    | .error _ => collectSegments rest
    | .ok segData =>
      match jsonUnmarshal stepMessageSegment zeroMessageSegment (some segData) with
      | .error _ => collectSegments rest
      | .ok msgSeg => msgSeg :: collectSegments rest

/-- GetSegments returns the segments from a seglist message segment. -/
def GetSegments (mb : MessageBase) : Except String (List MessageSegment) :=
  if mb.MessageSegment.Type_ ≠ "seglist" then
    .error "message segment is not a seglist"
  else
    match mb.MessageSegment.Data with
    | .slice segments => .ok (collectSegments segments)
    | _ => .error "invalid seglist data format"

/-- The loop of `GetTextContent` over the segments of a seglist. The texts it
appends come out of the decoder and are valid UTF-8, so that the steps of the
concatenation are those of its parts. -/
def appendText : List MessageSegment → GoString → GoString
  | [], textContent => textContent
  | seg :: rest, textContent =>
    if seg.Type_ = "text" then
      match seg.Data with
      | .string text => appendText rest (textContent ++ text)
      | _ => appendText rest textContent
    else appendText rest textContent

/-- GetTextContent extracts all text content from the message. -/
def GetTextContent (mb : MessageBase) : GoString :=
  if mb.MessageSegment.Type_ = "text" then
    match mb.MessageSegment.Data with
    | .string text => text
    | _ => []
  else
    match GetSegments mb with
    | .error _ => []
    | .ok segments => appendText segments []

/-- IsGroupMessage checks if this is a group message. -/
def IsGroupMessage (mb : MessageBase) : Bool :=
  mb.MessageInfo.GroupInfo.isSome

/-- GetSenderID returns the sender's user ID. -/
def GetSenderID (mb : MessageBase) : GoString :=
  match mb.MessageInfo.UserInfo with
  | some u => u.UserID
  | none => []

/-- GetGroupID returns the group ID if this is a group message. -/
def GetGroupID (mb : MessageBase) : GoString :=
  match mb.MessageInfo.GroupInfo with
  | some g => g.GroupID
  | none => []

/-! ## The correlation table of `response_manager.go`

`ResponseManager` keeps two `sync.Map`s keyed by the request identifier. A
channel is a handle into a heap of channels, so that the waiter that made
the channel still holds it after the table has dropped it. -/

/-- A `sync.Map` with string keys: the list of its entries, at most one for
each key. -/
abbrev SyncMap (α : Type) := List (GoString × α)

/-- The method `Load` of `sync.Map`. -/
def SyncMap.Load {α : Type} (m : SyncMap α) (k : GoString) : Option α :=
  match m with
  | [] => none
  | (k', v) :: rest => if k = k' then some v else SyncMap.Load rest k

/-- The method `Store` of `sync.Map`: the entry of `k` is replaced, or added. -/
def SyncMap.Store {α : Type} (m : SyncMap α) (k : GoString) (v : α) : SyncMap α :=
  match m with
  | [] => [(k, v)]
  | (k', v') :: rest => if k = k' then (k, v) :: rest else (k', v') :: SyncMap.Store rest k v

/-- The method `Delete` of `sync.Map`. -/
def SyncMap.Delete {α : Type} (m : SyncMap α) (k : GoString) : SyncMap α :=
  match m with
  | [] => []
  | (k', v) :: rest =>
    if k = k' then SyncMap.Delete rest k else (k', v) :: SyncMap.Delete rest k

/-- The payload type `map[string]interface{}` of a response. -/
abbrev ResponseData := List (GoString × GoValue)

/-- Response 响应结构体: the payload and the instant it was stored at (an
instant is a number of nanoseconds). -/
structure Response where
  Data : ResponseData
  Timestamp : ℤ

/-- A channel made by `make(chan map[string]interface{}, 1)`: a buffer that
holds at most one payload. -/
abbrev Chan := Option ResponseData

/-- ResponseManager 响应管理器: the table of stored responses, the table of
pending slots (request identifier to channel handle), the channels made so
far, and the heartbeat interval of the configuration. -/
structure ResponseManager where
  responses : SyncMap Response
  responseChans : SyncMap ℕ
  channels : List Chan
  heartbeatInterval : ℤ

/-- NewResponseManager 创建新的响应管理器. -/
def NewResponseManager (heartbeatInterval : ℤ) : ResponseManager :=
  { responses := [], responseChans := [], channels := [], heartbeatInterval := heartbeatInterval }

/-- The first two statements of `GetResponse`: a fresh channel of capacity one
is made and stored under `requestID`. The result is the new state and the
handle of the channel the caller then waits on. -/
def GetResponse_register (rm : ResponseManager) (requestID : GoString) :
    ResponseManager × ℕ :=
  let ch := rm.channels.length
  ({ rm with
      channels := rm.channels ++ [none]
      responseChans := rm.responseChans.Store requestID ch }, ch)

/-- The case taken by the `select` of `GetResponse`. -/
inductive SelectCase where
  | ctxDone
  | received

/-- The `select` of `GetResponse` and its deferred `Delete`, for the waiter
holding channel `ch`. The case `received` can only be taken when the channel
holds a payload; `none` means that case is not enabled. The result is what
`GetResponse` returns and the state it leaves. -/
def GetResponse_select (rm : ResponseManager) (requestID : GoString) (ch : ℕ) :
    SelectCase → Option (Except GoString ResponseData × ResponseManager)
  | .ctxDone =>
    some (.error (GoString.ofString "请求超时或取消，request_id: " ++ requestID),
          { rm with responseChans := rm.responseChans.Delete requestID })
  | .received =>
    match rm.channels[ch]? with
    | some (some resp) =>
      some (.ok resp,
            { rm with
                channels := rm.channels.set ch none
                responseChans := rm.responseChans.Delete requestID })
    | _ => none

/-- How a call of `PutResponse` ends: it returns an error value (`none` is the
nil error), or it blocks in the send on a channel whose buffer is full. -/
inductive PutOutcome where
  | returned (err : Option String)
  | blocked
deriving DecidableEq

/-- PutResponse 存储响应，并通知等待的 channel. The instant `now` is the value
of `time.Now()`. -/
def PutResponse (rm : ResponseManager) (now : ℤ) (response : ResponseData) :
    PutOutcome × ResponseManager :=
  match mapIndex response "echo" with
  | some (.string echoID) =>
    let resp : Response := { Data := response, Timestamp := now }
    let rm1 := { rm with responses := rm.responses.Store echoID resp }
    match rm1.responseChans.Load echoID with
    | some ch =>
      let rm2 := { rm1 with responseChans := rm1.responseChans.Delete echoID }
      match rm2.channels[ch]? with
      | some none => (.returned none, { rm2 with channels := rm2.channels.set ch (some response) })
      | _ => (.blocked, rm2)
    | none => (.returned none, rm1)
  | _ => (.returned (some "响应中缺少echo字段或类型错误"), rm)

/-- Stats 获取统计信息: the number of entries `Range` visits in `responses`. -/
def Stats (rm : ResponseManager) : ℕ :=
  rm.responses.foldl (fun count _ => count + 1) 0

/-! ## Vocabulary of the statements about envelopes -/

/-- Encoding followed by decoding: `FromJSON` applied to the text `ToJSON`
returns. -/
def roundTrip (mb : MessageBase) : Except String MessageBase :=
  match ToJSON mb with
  | .ok jsonStr => FromJSON jsonStr
  | .error e => .error e

/-- A leaf segment with string data: the type is not `"seglist"` and `Data`
holds a Go string. -/
def MessageSegment.isStringLeaf (s : MessageSegment) : Bool :=
  s.Type_ != "seglist" &&
    match s.Data with
    | .string _ => true
    | _ => false

/-- A valid envelope in the sense of the data model: the content is a leaf
segment with string data, or a segment list made by `NewSegList` from leaf
segments with string data. -/
def ValidEnvelope (mb : MessageBase) : Prop :=
  mb.MessageSegment.isStringLeaf = true ∨
    ∃ segments : Slice MessageSegment,
      mb.MessageSegment = NewSegList segments ∧
        ∀ s ∈ segments.getD [], s.isStringLeaf = true

/-- The segment sequence of a valid envelope in the sense of the data model:
the content itself for a leaf, the listed segments for a segment list. -/
def contentSegments (mb : MessageBase) : List MessageSegment :=
  if mb.MessageSegment.Type_ = "seglist" then
    match mb.MessageSegment.Data with
    | .segments xs => xs.map MessageSegment.ofPair
    | _ => []
  else [mb.MessageSegment]

/-- The metadata of the envelope of the scenario: platform `x`, message `m1`, user `u1`. -/
def sampleInfo : MessageInfo :=
  ⟨"x", "m1", .finite 1700000000, some ⟨"x", "u1", [], []⟩, none, none, none, []⟩

/-- An envelope whose content is the leaf text segment `hello`. -/
def leafEnvelope : MessageBase := ⟨sampleInfo, NewTextSegment "hello", "hello"⟩

/-- An envelope whose content is the segment list made from the nil slice. -/
def nilListEnvelope : MessageBase := NewMessageBase 1700000000 "x" "m1" none none none

/-- An envelope whose content is the segment list of one text segment. -/
def listEnvelope : MessageBase := NewSimpleTextMessage 1700000000 "x" "m1" "u1" "hello"

mutual
/-- A dynamic value as the `interface{}` decoder produces it: every number
finite, every string and key valid UTF-8, every map in strictly ascending key
order, and no `[]MessageSegment` and no value of another type inside. -/
def Canonical : GoValue → Prop
  | .nil => True
  | .bool _ => True
  | .float64 (.finite _) => True
  | .float64 .posInf => False
  | .float64 .negInf => False
  | .float64 .nan => False
  | .string s => GoString.isValid s = true
  | .slice xs => CanonicalList xs
  | .map kvs => CanonicalEntries kvs
  | .nilSegments => False
  | .segments _ => False
  | .unsupported => False
  | .other _ => False
/-- Every element is canonical. -/
def CanonicalList : List GoValue → Prop
  | [] => True
  | x :: xs => Canonical x ∧ CanonicalList xs
/-- Every key is valid UTF-8, every value is canonical and the keys ascend
strictly. -/
def CanonicalEntries : List (GoString × GoValue) → Prop
  | [] => True
  | (k, v) :: rest =>
    GoString.isValid k = true ∧ Canonical v ∧ (∀ e ∈ rest, keyLt k e.1 = true) ∧
      CanonicalEntries rest
end

/-- The entry that stands for the segment `s` in a decoded segment list: the
object with the members `data` and `type`. -/
def segmentEntry (s : MessageSegment) : GoValue :=
  .map [("data", s.Data), ("type", .string s.Type_)]

/-- An entry of a decoded array that cannot be decoded as a segment: a number,
a string, a boolean, an array, or an object whose member `type` is a number, a
boolean, an array or an object. -/
def RejectedEntry : GoValue → Prop
  | .float64 _ => True
  | .string _ => True
  | .bool _ => True
  | .slice _ => True
  | .map kvs =>
    match mapIndex kvs "type" with
    | some (.float64 _) => True
    | some (.bool _) => True
    | some (.slice _) => True
    | some (.map _) => True
    | _ => False
  | _ => False

/-- The payload of an envelope of platform `x` whose content is declared a
segment list with the given data. -/
def seglistPayload (data : JSON) : Payload :=
  some (.obj [("message_info", .obj [("platform", .str "x")]),
    ("message_segment", .obj [("type", .str "seglist"), ("data", data)])])

/-- The text of a segment in the sense of the data model: the string data of a
segment of type `text`, nothing for any other segment. -/
def segmentText (s : MessageSegment) : GoString :=
  if s.Type_ = "text" then
    match s.Data with
    | .string text => text
    | _ => []
  else []

/-- The text content of an envelope in the words of the specification: the
concatenation, in order, of the text of every segment of the envelope. -/
def specTextContent (mb : MessageBase) : GoString :=
  ((contentSegments mb).map segmentText).flatten

/-- The members of a JSON object; a value that is not an object has none. -/
def JSON.members : JSON → List (String × JSON)
  | .obj kvs => kvs
  | _ => []

/-- The value of the first member named `key` in a list of members. -/
def lookupMember : List (String × JSON) → String → Option JSON
  | [], _ => none
  | (k, v) :: rest, key => if k = key then some v else lookupMember rest key

/-- The value of the member `key` of a JSON object, `none` when the key is
absent. -/
def JSON.member (j : JSON) (key : String) : Option JSON :=
  lookupMember j.members key

/-- The payload of the delivery scenario: echo `req-1`, data `ok`. -/
def sampleResponse : ResponseData := [("data", .string "ok"), ("echo", .string "req-1")]

/-- The manager of the delivery scenario, right after `req-1` is registered:
the waiter holds channel 0. -/
def registeredManager : ResponseManager :=
  (GetResponse_register (NewResponseManager 30000000000) "req-1").1

/-! ## The sweep of `response_manager.go` -/

/-- The body of the `Range` of `cleanTimeoutResponses` over the entries of
`responses`: an entry stored more than the heartbeat interval before `now` is
deleted from the table and counted. -/
def cleanTimeoutResponses_range (now heartbeatInterval : ℤ) :
    List (GoString × Response) → SyncMap Response → ℕ → SyncMap Response × ℕ
  | [], responses, cleanedCount => (responses, cleanedCount)
  | (echoID, response) :: rest, responses, cleanedCount =>
    if now - response.Timestamp > heartbeatInterval then
      cleanTimeoutResponses_range now heartbeatInterval rest (responses.Delete echoID)
        (cleanedCount + 1)
    else
      cleanTimeoutResponses_range now heartbeatInterval rest responses cleanedCount

/-- cleanTimeoutResponses 清理超时响应. The instant `now` is the value of
`time.Now()`; the result is the new state and the count that is logged. -/
def cleanTimeoutResponses (rm : ResponseManager) (now : ℤ) : ResponseManager × ℕ :=
  let swept := cleanTimeoutResponses_range now rm.heartbeatInterval rm.responses rm.responses 0
  ({ rm with responses := swept.1 }, swept.2)

/-- At most one entry for each key, as in every `sync.Map`. -/
def SyncMap.KeysDistinct {α : Type} (m : SyncMap α) : Prop :=
  m.Pairwise (fun a b => a.1 ≠ b.1)

/-! ## The client of `maibot.go`

The mutex `mu` makes each operation below atomic. The network is seen through
what the client does to it: connections are numbered in the order `Dial`
opens them; what a dial, a write or a read returns is an input of the
operation. -/

/-- The handle of a `*websocket.Conn`. -/
abbrev Conn := ℕ

/-- A `MessageHandler`, named by a number. -/
abbrev MessageHandler := ℕ

/-- Client: the fields of the struct that the operations read or write. The
channel `done` is `true` once it is closed; a nil `conn` or handler is `none`. -/
structure Client where
  conn : Option Conn
  endpoint : String
  platform : String
  authToken : String
  done : Bool
  reconnectInterval : ℤ
  messageHandler : Option MessageHandler

/-- A frame handed to `WriteMessage`: a text message with its payload, or a
ping without data. -/
inductive Frame where
  | TextMessage (data : Payload)
  | PingMessage

/-- One call of `conn.WriteMessage`: the connection, the frame and the error
returned (`none` is the nil error). -/
structure WriteCall where
  conn : Conn
  frame : Frame
  err : Option String

/-- What the client has done to the outside so far: the number of connections
dialled, the connections on which `Close` was called, the calls of
`WriteMessage`, and the calls of the message handler. -/
structure Effects where
  dialed : ℕ
  closed : List Conn
  writes : List WriteCall
  handled : List (MessageHandler × MessageBase)

/-- The client together with its effects. -/
structure ClientState where
  client : Client
  effects : Effects

/-- NewClient. -/
def NewClient (endpoint platform authToken : String) : ClientState :=
  { client :=
      { conn := none
        endpoint := endpoint
        platform := platform
        authToken := authToken
        done := false
        reconnectInterval := 5000000000
        messageHandler := none }
    effects := { dialed := 0, closed := [], writes := [], handled := [] } }

/-- Connect: `dial` is the error `dialer.Dial` returns (`none` when the
handshake succeeds). On success the new connection replaces `conn`; the
heartbeat routine started by `setupHeartbeat` shows as later ticks. -/
def Connect (s : ClientState) (dial : Option String) : Option String × ClientState :=
  match dial with
  | some err => (some err, s)
  | none =>
    let conn := s.effects.dialed
    (none,
      { client := { s.client with conn := some conn }
        effects := { s.effects with dialed := s.effects.dialed + 1 } })

/-- One tick of the routine started by `setupHeartbeat` (the case
`<-ticker.C`): `ping` is the error the ping write returns. -/
def heartbeatTick (s : ClientState) (ping : Option String) : ClientState :=
  match s.client.conn with
  | none => s
  | some conn =>
    let written : Effects :=
      { s.effects with writes := s.effects.writes ++ [⟨conn, .PingMessage, ping⟩] }
    match ping with
    | some _ =>
      { client := { s.client with conn := none }
        effects := { written with closed := written.closed ++ [conn] } }
    | none => { s with effects := written }

/-- SendMessage: `write` is the error `conn.WriteMessage` returns when it is
called. The result is the error returned and the state left. -/
def SendMessage (s : ClientState) (message : Payload) (write : Option String) :
    Option String × ClientState :=
  match s.client.conn with
  | none => (some "WebSocket not connected", s)
  | some conn =>
    let written : Effects :=
      { s.effects with writes := s.effects.writes ++ [⟨conn, .TextMessage message, write⟩] }
    match write with
    | some err =>
      (some err,
        { client := { s.client with conn := none }
          effects := { written with closed := written.closed ++ [conn] } })
    | none => (none, { s with effects := written })

/-- SendMessageBase sends a MessageBase message. -/
def SendMessageBase (s : ClientState) (msg : MessageBase) (write : Option String) :
    Option String × ClientState :=
  match ToJSON msg with
  | .error _ => (some "failed to convert message to JSON", s)
  | .ok jsonData => SendMessage s jsonData write

/-- SetMessageHandler sets the message handler function. -/
def SetMessageHandler (s : ClientState) (handler : Option MessageHandler) : ClientState :=
  { s with client := { s.client with messageHandler := handler } }

/-- handleReceivedMessage processes incoming messages. -/
def handleReceivedMessage (s : ClientState) (data : Payload) : ClientState :=
  match FromJSON data with
  | .error _ => s
  | .ok msg =>
    match s.client.messageHandler with
    | some handler =>
      { s with effects := { s.effects with handled := s.effects.handled ++ [(handler, msg)] } }
    | none => s

/-- What one iteration of the loop of `Listen` is given: the error of the
dial, should it reconnect, and the result of `ReadMessage`, should it read. -/
structure ListenInput where
  dial : Option String
  read : Except String Payload

/-- The body of one iteration of `Listen` past its `select`, with `conn` the
value of `c.conn` the iteration has read. -/
def Listen_body (s : ClientState) (conn : Option Conn) (input : ListenInput) : ClientState :=
  match conn with
  | none => (Connect s input.dial).2
  | some _ =>
    match input.read with
    | .error _ =>
      match s.client.conn with
      | some live =>
        { client := { s.client with conn := none }
          effects := { s.effects with closed := s.effects.closed ++ [live] } }
      | none => s
    | .ok message => handleReceivedMessage s message

/-- One iteration of the loop of `Listen`: `none` when the loop returns
because `done` is closed, else the state the iteration leaves. -/
def Listen_iteration (s : ClientState) (input : ListenInput) : Option ClientState :=
  if s.client.done then none
  else some (Listen_body s s.client.conn input)

/-- How a call ends: it returns, or it panics. -/
inductive CallOutcome where
  | returned
  | panicked (msg : String)
deriving DecidableEq

/-- Close: `close(c.done)` panics when the channel is already closed. -/
def Close (s : ClientState) : CallOutcome × ClientState :=
  if s.client.done then (.panicked "close of closed channel", s)
  else
    match s.client.conn with
    | some conn =>
      (.returned,
        { client := { s.client with done := true, conn := none }
          effects := { s.effects with closed := s.effects.closed ++ [conn] } })
    | none => (.returned, { s with client := { s.client with done := true } })

/-- An operation performed on a client, with what the network answers. A
`listen` is an iteration of `Listen` that starts at its `select`. -/
inductive ClientOp where
  | connect (dial : Option String)
  | listen (input : ListenInput)
  | tick (ping : Option String)
  | send (message : Payload) (write : Option String)

/-- The state an operation leaves. -/
def ClientOp.apply (s : ClientState) : ClientOp → ClientState
  | .connect dial => (Connect s dial).2
  | .listen input => (Listen_iteration s input).getD s
  | .tick ping => heartbeatTick s ping
  | .send message write => (SendMessage s message write).2

/-- The state a sequence of operations leaves. -/
def runOps (s : ClientState) : List ClientOp → ClientState
  | [] => s
  | op :: rest => runOps (op.apply s) rest

/-- Whether the operation is a call of `Connect`. -/
def ClientOp.isConnect : ClientOp → Bool
  | .connect _ => true
  | _ => false

/-! ## The filter of `message_filter.go` -/

/-- The type `config.MessageFilter`: a mode and a list of chat identifiers. -/
structure config.MessageFilter where
  Mode : String
  List : List ℤ

/-- The type `config.MessageFilterConfig`. -/
structure config.MessageFilterConfig where
  BannedUsers : List ℤ
  Groups : config.MessageFilter
  Private : config.MessageFilter

/-- The sender of a Telegram message (`tgbotapi.User`). -/
structure tgbotapi.User where
  ID : ℤ

/-- The chat of a Telegram message (`tgbotapi.Chat`). -/
structure tgbotapi.Chat where
  ID : ℤ
  Type_ : String

/-- The method `IsPrivate` of `tgbotapi.Chat`. -/
def tgbotapi.Chat.IsPrivate (c : tgbotapi.Chat) : Bool := c.Type_ == "private"

/-- A Telegram message (`tgbotapi.Message`), as far as the filter reads it:
the sender, a pointer that is nil for a message without sender, and the chat. -/
structure tgbotapi.Message where
  From : Option tgbotapi.User
  Chat : tgbotapi.Chat

/-- The loop of `chatIDFilter` over the list of the filter. -/
def chatIDFilter_loop (isWhitelist : Bool) (id : ℤ) : List ℤ → Bool
  | [] => !isWhitelist
  | chatID :: rest => if chatID = id then isWhitelist else chatIDFilter_loop isWhitelist id rest

/-- chatIDFilter. -/
def chatIDFilter (filter : config.MessageFilter) (id : ℤ) : Bool :=
  let isWhitelist := filter.Mode == "whitelist"
  chatIDFilter_loop isWhitelist id filter.List

/-- The loop of `MessageFilter` over the banned users: `none` when it
dereferences the nil sender, else whether it has returned `false`. -/
def MessageFilter_banned (from_ : Option tgbotapi.User) : List ℤ → Option Bool
  | [] => some false
  | id :: rest =>
    match from_ with
    | none => none
    | some user => if user.ID = id then some true else MessageFilter_banned from_ rest

/-- MessageFilter, on the configuration `config.Get().MessageFilter`: `none`
when the call panics on a nil sender. -/
def MessageFilter (filters : config.MessageFilterConfig) (message : tgbotapi.Message) :
    Option Bool :=
  match MessageFilter_banned message.From filters.BannedUsers with
  | none => none
  | some true => some false
  | some false =>
    let isPrivate := message.Chat.IsPrivate
    some (chatIDFilter (if isPrivate then filters.Private else filters.Groups) message.Chat.ID)

/-- A manager holding one response for `req-1`, stored at the instant 5, and no
pending slot. -/
def storedManager : ResponseManager :=
  (PutResponse (NewResponseManager 30000000000) 5 sampleResponse).2

/-- A client connected on connection 0, with handler 7 installed. -/
def connectedClient : ClientState :=
  SetMessageHandler (Connect (NewClient "ws://localhost:8090/ws" "telegram" "") none).2 (some 7)

/-- An inbound payload: a text envelope whose message id is `req-1`, with a
member `echo` of the same value beside it. -/
def inboundPayload : Payload :=
  some (.obj [("echo", .str "req-1"),
    ("message_info", .obj [("platform", .str "x"), ("message_id", .str "req-1")]),
    ("message_segment", .obj [("type", .str "text"), ("data", .str "ok")])])

/-- The envelope the inbound payload decodes to. -/
def inboundEnvelope : MessageBase :=
  ⟨⟨"x", "req-1", .finite 0, none, none, none, none, []⟩, ⟨"text", .string "ok"⟩, []⟩

/-- The content invariant of the data model: the content is a leaf segment,
or a segment list whose data is a sequence of leaf segments. -/
def ContentInvariant (mb : MessageBase) : Prop :=
  mb.MessageSegment.Type_ ≠ "seglist" ∨
    match mb.MessageSegment.Data with
    | .nilSegments => True
    | .segments xs => ∀ p ∈ xs, p.1 ≠ "seglist"
    | .slice vs => ∀ v ∈ vs, ∃ s : MessageSegment, v = segmentEntry s ∧ s.Type_ ≠ "seglist"
    | _ => False

/-- An envelope made by `NewMessageBase` from one segment that is itself a
segment list. -/
def nestedEnvelope : MessageBase :=
  NewMessageBase 1700000000 "x" "m1" none none (some [NewSegList (some [NewTextSegment "a"])])

/-- A filter configuration: user 666 banned, groups on the whitelist 100,
private chats on the blacklist 200. -/
def sampleFilters : config.MessageFilterConfig :=
  { BannedUsers := [666]
    Groups := { Mode := "whitelist", List := [100] }
    Private := { Mode := "blacklist", List := [200] } }

/-! ## Vocabulary of the statements about the encoder -/

/-- The Go string read back from what the encoder writes for `g`: `g` with
every byte that is not valid UTF-8 replaced by U+FFFD. -/
def GoString.sanitize (g : GoString) : GoString := GoString.ofString (GoString.toValid g)

/-- `UserInfo` with every string sanitized. -/
def UserInfo.sanitize (u : UserInfo) : UserInfo :=
  ⟨GoString.sanitize u.Platform, GoString.sanitize u.UserID, GoString.sanitize u.UserNickname,
    GoString.sanitize u.UserCardname⟩

/-- `GroupInfo` with every string sanitized. -/
def GroupInfo.sanitize (g : GroupInfo) : GroupInfo :=
  ⟨GoString.sanitize g.Platform, GoString.sanitize g.GroupID, GoString.sanitize g.GroupName⟩

/-- `FormatInfo` with every string sanitized. -/
def FormatInfo.sanitize (f : FormatInfo) : FormatInfo :=
  ⟨f.ContentFormat.map GoString.sanitize, f.AcceptFormat.map GoString.sanitize⟩

/-- The segment with its type, and its data when it is a string, sanitized. -/
def MessageSegment.sanitize (s : MessageSegment) : MessageSegment :=
  ⟨GoString.sanitize s.Type_,
    match s.Data with
    | .string d => .string (GoString.sanitize d)
    | v => v⟩

/-- Whether every string of the `UserInfo` is valid UTF-8. -/
def UserInfo.isValid (u : UserInfo) : Bool :=
  GoString.isValid u.Platform && GoString.isValid u.UserID &&
    GoString.isValid u.UserNickname && GoString.isValid u.UserCardname

/-- Whether every string of the `GroupInfo` is valid UTF-8. -/
def GroupInfo.isValid (g : GroupInfo) : Bool :=
  GoString.isValid g.Platform && GoString.isValid g.GroupID && GoString.isValid g.GroupName

/-- Whether the type of the segment, and its data when it is a string, are
valid UTF-8. -/
def MessageSegment.isValid (s : MessageSegment) : Bool :=
  GoString.isValid s.Type_ &&
    match s.Data with
    | .string d => GoString.isValid d
    | _ => true

/-- The strings of the envelope that the round trip speaks of are valid UTF-8:
platform, message id, user info, group info, raw message, and the types and
string data of the content and of the segments it lists. -/
def ValidStrings (mb : MessageBase) : Prop :=
  GoString.isValid mb.MessageInfo.Platform = true ∧
  GoString.isValid mb.MessageInfo.MessageID = true ∧
  (∀ u, mb.MessageInfo.UserInfo = some u → u.isValid = true) ∧
  (∀ g, mb.MessageInfo.GroupInfo = some g → g.isValid = true) ∧
  GoString.isValid mb.RawMessage = true ∧
  mb.MessageSegment.isValid = true ∧
  (∀ xs, mb.MessageSegment.Data = .segments xs →
    ∀ p ∈ xs, (MessageSegment.ofPair p).isValid = true)

/-- The envelope holds nothing that `json.Marshal` refuses outside its content:
the time is finite, and the entries of the extension maps `additional_config`
and `template_items` are encoded without error. -/
def Encodable (mb : MessageBase) : Prop :=
  (∃ q, mb.MessageInfo.Time = .finite q) ∧
  (∃ members, marshalEntries mb.MessageInfo.AdditionalConfig = .ok members) ∧
  (∀ t, mb.MessageInfo.TemplateInfo = some t →
    ∃ members, marshalEntries t.TemplateItems = .ok members)

/-- What the encoder writes for the extension maps of the envelope is read back
by the decoder without error. -/
def Redecodable (mb : MessageBase) : Prop :=
  (∀ members, marshalEntries mb.MessageInfo.AdditionalConfig = .ok members →
    ∃ m, decodeEntries members [] = .ok m) ∧
  (∀ t, mb.MessageInfo.TemplateInfo = some t →
    ∀ members, marshalEntries t.TemplateItems = .ok members →
      ∃ m, decodeEntries members [] = .ok m)

/-- A Go string that is not valid UTF-8: the bytes `a`, `0xff`, `b`. -/
def invalidText : GoString := [.rune 'a', .invalid 255, .rune 'b']

/-- The leaf envelope of the text `hello` with the time NaN. -/
def nanEnvelope : MessageBase :=
  ⟨⟨"x", "m1", .nan, some ⟨"x", "u1", "nick", []⟩, none, none, none, []⟩,
    NewTextSegment "hello", "hello"⟩

/-- The leaf envelope whose text is not valid UTF-8. -/
def invalidTextEnvelope : MessageBase := ⟨sampleInfo, NewTextSegment invalidText, []⟩

/-- An envelope whose extension map holds a value of a type that cannot be
encoded. -/
def unsupportedConfigEnvelope : MessageBase :=
  ⟨⟨"x", "m1", .finite 1700000000, some ⟨"x", "u1", "nick", []⟩, none, none, none,
      [("k", .unsupported)]⟩,
    NewTextSegment "hello", "hello"⟩

/-- An envelope whose extension map holds a `json.Number` with a literal beyond
the range of `float64`. -/
def bigNumberEnvelope : MessageBase :=
  ⟨⟨"x", "m1", .finite 1700000000, none, none, none, none,
      [("n", .other (.num .outOfRange))]⟩,
    NewTextSegment "hello", "hello"⟩

/-- An envelope whose nickname is the single byte `0xff`. -/
def invalidNicknameEnvelope : MessageBase :=
  ⟨⟨"x", "m1", .finite 1700000000, some ⟨"x", "u1", [.invalid 255], []⟩, none, none, none,
      []⟩,
    NewTextSegment "hello", "hello"⟩

@[simp] theorem findField_segment_type : findField ["type", "data"] "type" = some "type" := rfl
@[simp] theorem findField_segment_data : findField ["type", "data"] "data" = some "data" := rfl
@[simp] theorem findField_user_platform :
    findField ["platform", "user_id", "user_nickname", "user_cardname"] "platform"
      = some "platform" := rfl
@[simp] theorem findField_user_id :
    findField ["platform", "user_id", "user_nickname", "user_cardname"] "user_id"
      = some "user_id" := rfl
@[simp] theorem findField_user_nickname :
    findField ["platform", "user_id", "user_nickname", "user_cardname"] "user_nickname"
      = some "user_nickname" := rfl
@[simp] theorem findField_user_cardname :
    findField ["platform", "user_id", "user_nickname", "user_cardname"] "user_cardname"
      = some "user_cardname" := rfl
@[simp] theorem findField_group_platform :
    findField ["platform", "group_id", "group_name"] "platform" = some "platform" := rfl
@[simp] theorem findField_group_id :
    findField ["platform", "group_id", "group_name"] "group_id" = some "group_id" := rfl
@[simp] theorem findField_group_name :
    findField ["platform", "group_id", "group_name"] "group_name" = some "group_name" := rfl
@[simp] theorem findField_content_format :
    findField ["content_format", "accept_format"] "content_format" = some "content_format" := rfl
@[simp] theorem findField_accept_format :
    findField ["content_format", "accept_format"] "accept_format" = some "accept_format" := rfl
@[simp] theorem findField_template_items :
    findField ["template_items", "template_name", "template_default"] "template_items"
      = some "template_items" := rfl
@[simp] theorem findField_template_name :
    findField ["template_items", "template_name", "template_default"] "template_name"
      = some "template_name" := rfl
@[simp] theorem findField_template_default :
    findField ["template_items", "template_name", "template_default"] "template_default"
      = some "template_default" := rfl
@[simp] theorem findField_info_platform :
    findField messageInfoFields "platform" = some "platform" := rfl
@[simp] theorem findField_info_message_id :
    findField messageInfoFields "message_id" = some "message_id" := rfl
@[simp] theorem findField_info_time : findField messageInfoFields "time" = some "time" := rfl
@[simp] theorem findField_info_user_info :
    findField messageInfoFields "user_info" = some "user_info" := rfl
@[simp] theorem findField_info_group_info :
    findField messageInfoFields "group_info" = some "group_info" := rfl
@[simp] theorem findField_info_format_info :
    findField messageInfoFields "format_info" = some "format_info" := rfl
@[simp] theorem findField_info_template_info :
    findField messageInfoFields "template_info" = some "template_info" := rfl
@[simp] theorem findField_info_additional_config :
    findField messageInfoFields "additional_config" = some "additional_config" := rfl
@[simp] theorem findField_base_message_info :
    findField ["message_info", "message_segment", "raw_message"] "message_info"
      = some "message_info" := rfl
@[simp] theorem findField_base_message_segment :
    findField ["message_info", "message_segment", "raw_message"] "message_segment"
      = some "message_segment" := rfl
@[simp] theorem findField_base_raw_message :
    findField ["message_info", "message_segment", "raw_message"] "raw_message"
      = some "raw_message" := rfl

/-! ## Go strings and what the encoder writes for them -/

@[simp] theorem GoString.ofString_empty : GoString.ofString "" = [] := rfl

@[simp] theorem GoString.toValid_nil : GoString.toValid [] = "" := rfl

@[simp] theorem GoString.toValid_ofString (s : String) :
    GoString.toValid (GoString.ofString s) = s := by
  cases s with
  | mk data =>
    simp only [GoString.toValid, GoString.ofString, List.map_map]
    congr 1
    induction data with
    | nil => rfl
    | cons c cs ih => simp [GoChar.toValid, ih]

theorem GoString.ofString_injective : Function.Injective GoString.ofString := by
  intro a b h
  have := congrArg GoString.toValid h
  simpa using this

@[simp] theorem GoString.ofString_inj (a b : String) :
    GoString.ofString a = GoString.ofString b ↔ a = b :=
  GoString.ofString_injective.eq_iff

@[simp] theorem GoString.ofString_eq_nil (s : String) : GoString.ofString s = [] ↔ s = "" := by
  rw [← GoString.ofString_empty, GoString.ofString_inj]

@[simp] theorem GoString.toValid_eq_empty (g : GoString) : GoString.toValid g = "" ↔ g = [] := by
  cases g with
  | nil => simp
  | cons c cs =>
    simp only [GoString.toValid, List.map_cons, reduceCtorEq, iff_false]
    intro h
    have := congrArg String.data h
    simp at this

@[simp] theorem GoString.isValid_ofString (s : String) :
    GoString.isValid (GoString.ofString s) = true := by
  simp [GoString.isValid, GoString.ofString, GoChar.isRune]

theorem GoString.sanitize_of_isValid (g : GoString) (h : GoString.isValid g = true) :
    GoString.sanitize g = g := by
  induction g with
  | nil => rfl
  | cons c cs ih =>
    simp only [GoString.isValid, List.all_cons, Bool.and_eq_true] at h
    have ih' := ih (by simpa [GoString.isValid] using h.2)
    cases c with
    | invalid b => simp [GoChar.isRune] at h
    | rune c =>
      simp only [GoString.sanitize, GoString.toValid, GoString.ofString, List.map_cons,
        GoChar.toValid, List.cons.injEq, true_and] at ih' ⊢
      exact ih'

@[simp] theorem GoString.sanitize_ofString (s : String) :
    GoString.sanitize (GoString.ofString s) = GoString.ofString s := by
  simp [GoString.sanitize]

@[simp] theorem GoString.sanitize_nil : GoString.sanitize [] = [] := rfl

@[simp] theorem GoString.sanitize_eq_nil (g : GoString) : GoString.sanitize g = [] ↔ g = [] := by
  simp [GoString.sanitize]

@[simp] theorem GoString.toValid_sanitize (g : GoString) :
    GoString.toValid (GoString.sanitize g) = GoString.toValid g := by
  simp [GoString.sanitize]

@[simp] theorem GoString.isValid_sanitize (g : GoString) :
    GoString.isValid (GoString.sanitize g) = true := by
  simp [GoString.sanitize]

theorem userInfo_sanitize_of_isValid (u : UserInfo) (h : u.isValid = true) : u.sanitize = u := by
  obtain ⟨p, i, n, c⟩ := u
  simp only [UserInfo.isValid, Bool.and_eq_true] at h
  simp [UserInfo.sanitize, GoString.sanitize_of_isValid, h.1.1.1, h.1.1.2, h.1.2, h.2]

theorem groupInfo_sanitize_of_isValid (g : GroupInfo) (h : g.isValid = true) :
    g.sanitize = g := by
  obtain ⟨p, i, n⟩ := g
  simp only [GroupInfo.isValid, Bool.and_eq_true] at h
  simp [GroupInfo.sanitize, GoString.sanitize_of_isValid, h.1.1, h.1.2, h.2]

/-! ## The order of map keys -/

theorem GoChar.rank_injective : Function.Injective GoChar.rank := by
  intro a b h
  cases a with
  | rune c =>
    cases b with
    | rune d =>
      simp only [GoChar.rank] at h
      have hn : c.toNat = d.toNat := by omega
      have hcd : c = d := Char.ext (UInt32.ext (by simpa [Char.toNat] using hn))
      rw [hcd]
    | invalid y =>
      simp only [GoChar.rank] at h
      omega
  | invalid x =>
    cases b with
    | rune d =>
      simp only [GoChar.rank] at h
      omega
    | invalid y =>
      simp only [GoChar.rank] at h
      have : x = y := by omega
      rw [this]

theorem ltChars_irrefl (a : List GoChar) : ltChars a a = false := by
  induction a with
  | nil => rfl
  | cons c cs ih => simp [ltChars, ih]

theorem ltChars_asymm (a b : List GoChar) (h : ltChars a b = true) : ltChars b a = false := by
  induction a generalizing b with
  | nil => cases b <;> simp [ltChars]
  | cons c cs ih =>
    cases b with
    | nil => simp [ltChars] at h
    | cons d ds =>
      simp only [ltChars] at h ⊢
      split_ifs at h ⊢
      all_goals first | omega | rfl | exact ih ds h

theorem ltChars_trans (a b c : List GoChar) (h1 : ltChars a b = true)
    (h2 : ltChars b c = true) : ltChars a c = true := by
  induction a generalizing b c with
  | nil =>
    cases c with
    | nil => cases b <;> simp [ltChars] at h2
    | cons e es => simp [ltChars]
  | cons x xs ih =>
    cases b with
    | nil => simp [ltChars] at h1
    | cons y ys =>
      cases c with
      | nil => simp [ltChars] at h2
      | cons z zs =>
        simp only [ltChars] at h1 h2 ⊢
        split_ifs at h1 h2 ⊢
        all_goals first | omega | rfl | exact ih ys zs h1 h2

theorem ltChars_total (a b : List GoChar) (hne : a ≠ b) (h : ltChars a b = false) :
    ltChars b a = true := by
  induction a generalizing b with
  | nil =>
    cases b with
    | nil => exact absurd rfl hne
    | cons d ds => simp [ltChars] at h
  | cons c cs ih =>
    cases b with
    | nil => simp [ltChars]
    | cons d ds =>
      simp only [ltChars] at h ⊢
      split_ifs at h ⊢ with h1 h2
      all_goals first | omega | rfl | skip
      have hcd : c = d := GoChar.rank_injective (by omega)
      subst hcd
      exact ih ds (fun hh => hne (by rw [hh])) h

theorem keyLt_irrefl (a : GoString) : keyLt a a = false := ltChars_irrefl _

theorem keyLt_asymm (a b : GoString) (h : keyLt a b = true) : keyLt b a = false :=
  ltChars_asymm _ _ h

theorem keyLt_trans (a b c : GoString) (h1 : keyLt a b = true) (h2 : keyLt b c = true) :
    keyLt a c = true := ltChars_trans _ _ _ h1 h2

theorem keyLt_total (a b : GoString) (hne : a ≠ b) (h : keyLt a b = false) :
    keyLt b a = true :=
  ltChars_total _ _ hne h

theorem keyLt_ne (a b : GoString) (h : keyLt a b = true) : a ≠ b := by
  intro hab
  subst hab
  simp [keyLt_irrefl] at h

theorem mapStore_append_last {α : Type} (m : List (GoString × α)) (k : GoString) (v : α)
    (h : ∀ e ∈ m, keyLt e.1 k = true) : mapStore m k v = m ++ [(k, v)] := by
  induction m with
  | nil => rfl
  | cons e rest ih =>
    obtain ⟨k', v'⟩ := e
    have hk : keyLt k' k = true := h (k', v') (List.mem_cons_self _ _)
    have hne : k ≠ k' := fun hh => keyLt_ne _ _ hk hh.symm
    have hnlt : keyLt k k' = false := keyLt_asymm _ _ hk
    have hrest : ∀ e ∈ rest, keyLt e.1 k = true := fun e he => h e (List.mem_cons_of_mem _ he)
    simp [mapStore, hne, hnlt, ih hrest]

theorem mem_mapStore {α : Type} (m : List (GoString × α)) (k : GoString) (v : α)
    (e : GoString × α) (h : e ∈ mapStore m k v) : e = (k, v) ∨ e ∈ m := by
  induction m with
  | nil => simpa [mapStore] using h
  | cons x rest ih =>
    obtain ⟨k', v'⟩ := x
    simp only [mapStore] at h
    split_ifs at h with h1 h2
    · rcases List.mem_cons.mp h with h | h
      · exact Or.inl h
      · exact Or.inr (List.mem_cons_of_mem _ h)
    · rcases List.mem_cons.mp h with h | h
      · exact Or.inl h
      · exact Or.inr h
    · rcases List.mem_cons.mp h with h | h
      · exact Or.inr (by rw [h]; exact List.mem_cons_self _ _)
      · rcases ih h with h | h
        · exact Or.inl h
        · exact Or.inr (List.mem_cons_of_mem _ h)

theorem canonicalEntries_mapStore (m : List (GoString × GoValue)) (k : GoString) (v : GoValue)
    (hm : CanonicalEntries m) (hk : GoString.isValid k = true) (hv : Canonical v) :
    CanonicalEntries (mapStore m k v) := by
  induction m with
  | nil => simp [mapStore, CanonicalEntries, hv, hk]
  | cons x rest ih =>
    obtain ⟨k', v'⟩ := x
    simp only [CanonicalEntries] at hm
    obtain ⟨hk', hv', hlt, hrest⟩ := hm
    simp only [mapStore]
    split_ifs with h1 h2
    · subst h1
      exact ⟨hk, hv, hlt, hrest⟩
    · refine ⟨hk, hv, ?_, hk', hv', hlt, hrest⟩
      intro e he
      rcases List.mem_cons.mp he with he | he
      · rw [he]; exact h2
      · exact keyLt_trans _ _ _ h2 (hlt e he)
    · refine ⟨hk', hv', ?_, ih hrest⟩
      intro e he
      rcases mem_mapStore rest k v e he with he | he
      · rw [he]
        exact keyLt_total _ _ h1 (by simpa using h2)
      · exact hlt e he

/-! ## The values of the `interface{}` decoder -/

mutual
theorem canonical_decodeInterface :
    ∀ (j : JSON) (v : GoValue), decodeInterface j = .ok v → Canonical v
  | .null, v, h => by
    simp only [decodeInterface, Except.ok.injEq] at h
    subst h
    trivial
  | .bool _, v, h => by
    simp only [decodeInterface, Except.ok.injEq] at h
    subst h
    trivial
  | .num (.float _), v, h => by
    simp only [decodeInterface, Except.ok.injEq] at h
    subst h
    trivial
  | .num .outOfRange, v, h => by simp [decodeInterface] at h
  | .str s, v, h => by
    simp only [decodeInterface, Except.ok.injEq] at h
    subst h
    simp [Canonical]
  | .arr xs, v, h => by
    simp only [decodeInterface] at h
    cases hx : decodeInterfaces xs with
    | error e => simp [hx] at h
    | ok vs =>
      simp only [hx, Except.ok.injEq] at h
      subst h
      simp only [Canonical]
      exact canonical_decodeInterfaces xs vs hx
  | .obj kvs, v, h => by
    simp only [decodeInterface] at h
    cases hx : decodeEntries kvs [] with
    | error e => simp [hx] at h
    | ok m =>
      simp only [hx, Except.ok.injEq] at h
      subst h
      simp only [Canonical]
      exact canonical_decodeEntries kvs [] m trivial hx
theorem canonical_decodeInterfaces :
    ∀ (js : List JSON) (vs : List GoValue), decodeInterfaces js = .ok vs → CanonicalList vs
  | [], vs, h => by
    simp only [decodeInterfaces, Except.ok.injEq] at h
    subst h
    trivial
  | j :: js, vs, h => by
    simp only [decodeInterfaces] at h
    cases hj : decodeInterface j with
    | error e => simp [hj] at h
    | ok v =>
      cases hjs : decodeInterfaces js with
      | error e => simp [hj, hjs] at h
      | ok ws =>
        simp only [hj, hjs, Except.ok.injEq] at h
        subst h
        exact ⟨canonical_decodeInterface j v hj, canonical_decodeInterfaces js ws hjs⟩
theorem canonical_decodeEntries :
    ∀ (kvs : List (String × JSON)) (acc m : List (GoString × GoValue)),
      CanonicalEntries acc → decodeEntries kvs acc = .ok m → CanonicalEntries m
  | [], acc, m, hacc, h => by
    simp only [decodeEntries, Except.ok.injEq] at h
    subst h
    exact hacc
  | (k, j) :: rest, acc, m, hacc, h => by
    simp only [decodeEntries] at h
    cases hj : decodeInterface j with
    | error e => simp [hj] at h
    | ok v =>
      simp only [hj] at h
      exact canonical_decodeEntries rest _ m
        (canonicalEntries_mapStore acc _ v hacc (GoString.isValid_ofString k)
          (canonical_decodeInterface j v hj)) h
end

mutual
theorem decodeInterface_marshalValue :
    ∀ d : GoValue, Canonical d → ∃ j, marshalValue d = .ok j ∧ decodeInterface j = .ok d
  | .nil, _ => ⟨_, rfl, rfl⟩
  | .bool _, _ => ⟨_, rfl, rfl⟩
  | .float64 (.finite _), _ => ⟨_, rfl, rfl⟩
  | .float64 .posInf, h => absurd h (by simp [Canonical])
  | .float64 .negInf, h => absurd h (by simp [Canonical])
  | .float64 .nan, h => absurd h (by simp [Canonical])
  | .string s, h => by
    simp only [Canonical] at h
    refine ⟨_, rfl, ?_⟩
    have := GoString.sanitize_of_isValid s h
    simp only [GoString.sanitize] at this
    simp [decodeInterface, this]
  | .slice xs, h => by
    obtain ⟨js, h1, h2⟩ := decodeInterfaces_marshalValues xs h
    exact ⟨.arr js, by simp [marshalValue, h1], by simp [decodeInterface, h2]⟩
  | .map kvs, h => by
    obtain ⟨members, h1, h2⟩ := decodeEntries_marshalEntries kvs [] h (by simp)
    exact ⟨.obj members, by simp [marshalValue, h1], by simp [decodeInterface, h2]⟩
  | .nilSegments, h => absurd h (by simp [Canonical])
  | .segments _, h => absurd h (by simp [Canonical])
  | .unsupported, h => absurd h (by simp [Canonical])
  | .other _, h => absurd h (by simp [Canonical])
theorem decodeInterfaces_marshalValues :
    ∀ xs : List GoValue, CanonicalList xs →
      ∃ js, marshalValues xs = .ok js ∧ decodeInterfaces js = .ok xs
  | [], _ => ⟨[], rfl, rfl⟩
  | x :: xs, h => by
    obtain ⟨j, h1, h2⟩ := decodeInterface_marshalValue x h.1
    obtain ⟨js, h3, h4⟩ := decodeInterfaces_marshalValues xs h.2
    exact ⟨j :: js, by simp [marshalValues, h1, h3], by simp [decodeInterfaces, h2, h4]⟩
theorem decodeEntries_marshalEntries :
    ∀ (kvs acc : List (GoString × GoValue)), CanonicalEntries kvs →
      (∀ a ∈ acc, ∀ e ∈ kvs, keyLt a.1 e.1 = true) →
      ∃ members, marshalEntries kvs = .ok members ∧ decodeEntries members acc = .ok (acc ++ kvs)
  | [], acc, _, _ => ⟨[], rfl, by simp [decodeEntries]⟩
  | (k, v) :: rest, acc, h, hacc => by
    simp only [CanonicalEntries] at h
    obtain ⟨hk, hv, hlt, hrest⟩ := h
    obtain ⟨j, h1, h2⟩ := decodeInterface_marshalValue v hv
    have hacc' : ∀ a ∈ acc ++ [(k, v)], ∀ e ∈ rest, keyLt a.1 e.1 = true := by
      intro a ha e he
      rcases List.mem_append.mp ha with ha | ha
      · exact hacc a ha e (List.mem_cons_of_mem _ he)
      · simp only [List.mem_singleton] at ha
        rw [ha]
        exact hlt e he
    obtain ⟨members, h3, h4⟩ := decodeEntries_marshalEntries rest (acc ++ [(k, v)]) hrest hacc'
    have hkey : GoString.ofString (GoString.toValid k) = k := GoString.sanitize_of_isValid k hk
    refine ⟨(GoString.toValid k, j) :: members, by simp [marshalEntries, h1, h3], ?_⟩
    simp only [decodeEntries, h2, hkey]
    rw [mapStore_append_last acc k v (fun a ha => hacc a ha (k, v) (List.mem_cons_self _ _)), h4]
    simp
end

/-- A value out of the `interface{}` decoder is encoded without error, and
decoded to itself. -/
theorem decodeInterface_idem (j : JSON) (v : GoValue) (h : decodeInterface j = .ok v) :
    ∃ j', marshalValue v = .ok j' ∧ decodeInterface j' = .ok v :=
  decodeInterface_marshalValue _ (canonical_decodeInterface j v h)

/-! ## What a successful encoding consists of -/

theorem omitZeroFloat_ok (k : String) (t : Float64) (l : List (String × JSON))
    (h : omitZeroFloat k t = .ok l) :
    ∃ q, t = .finite q ∧ l = if q = 0 then [] else [(k, .num (.float q))] := by
  cases t with
  | finite q =>
    refine ⟨q, rfl, ?_⟩
    simp only [omitZeroFloat] at h
    split_ifs at h ⊢ <;> simp only [Except.ok.injEq] at h <;> exact h.symm
  | posInf => simp [omitZeroFloat] at h
  | negInf => simp [omitZeroFloat] at h
  | nan => simp [omitZeroFloat] at h

theorem omitEmptyMap_ok (k : String) (m : List (GoString × GoValue)) (l : List (String × JSON))
    (h : omitEmptyMap k m = .ok l) :
    (m = [] ∧ l = []) ∨
      (m ≠ [] ∧ ∃ members, marshalEntries m = .ok members ∧ l = [(k, .obj members)]) := by
  cases m with
  | nil =>
    simp only [omitEmptyMap, Except.ok.injEq] at h
    exact Or.inl ⟨rfl, h.symm⟩
  | cons x xs =>
    simp only [omitEmptyMap] at h
    cases hm : marshalEntries (x :: xs) with
    | error e => simp [hm] at h
    | ok members =>
      simp only [hm, Except.ok.injEq] at h
      exact Or.inr ⟨by simp, members, rfl, h.symm⟩

theorem marshalTemplateInfo_ok (t : TemplateInfo) (j : JSON)
    (h : marshalTemplateInfo t = .ok j) :
    ∃ items, omitEmptyMap "template_items" t.TemplateItems = .ok items ∧
      j = .obj (items ++ omitEmptyString "template_name" t.TemplateName
        ++ (if t.TemplateDefault then [("template_default", .bool true)] else [])) := by
  simp only [marshalTemplateInfo] at h
  cases hi : omitEmptyMap "template_items" t.TemplateItems with
  | error e => simp [hi] at h
  | ok items =>
    simp only [hi, Except.ok.injEq] at h
    exact ⟨items, rfl, h.symm⟩

theorem omitNilTemplateInfo_ok (p : Option TemplateInfo) (l : List (String × JSON))
    (h : omitNilTemplateInfo p = .ok l) :
    (p = none ∧ l = []) ∨
      ∃ t j, p = some t ∧ marshalTemplateInfo t = .ok j ∧ l = [("template_info", j)] := by
  cases p with
  | none =>
    simp only [omitNilTemplateInfo, Except.ok.injEq] at h
    exact Or.inl ⟨rfl, h.symm⟩
  | some t =>
    simp only [omitNilTemplateInfo] at h
    cases hj : marshalTemplateInfo t with
    | error e => simp [hj] at h
    | ok j =>
      simp only [hj, Except.ok.injEq] at h
      exact Or.inr ⟨t, j, rfl, hj, h.symm⟩

theorem marshalMessageInfo_ok (mi : MessageInfo) (j : JSON) (h : marshalMessageInfo mi = .ok j) :
    ∃ time template config,
      omitZeroFloat "time" mi.Time = .ok time ∧
      omitNilTemplateInfo mi.TemplateInfo = .ok template ∧
      omitEmptyMap "additional_config" mi.AdditionalConfig = .ok config ∧
      j = .obj ([("platform", .str (GoString.toValid mi.Platform))]
          ++ omitEmptyString "message_id" mi.MessageID
          ++ time
          ++ omitNil "user_info" marshalUserInfo mi.UserInfo
          ++ omitNil "group_info" marshalGroupInfo mi.GroupInfo
          ++ omitNil "format_info" marshalFormatInfo mi.FormatInfo
          ++ template
          ++ config) := by
  simp only [marshalMessageInfo] at h
  cases h1 : omitZeroFloat "time" mi.Time with
  | error e => simp [h1] at h
  | ok time =>
    cases h2 : omitNilTemplateInfo mi.TemplateInfo with
    | error e => simp [h1, h2] at h
    | ok template =>
      cases h3 : omitEmptyMap "additional_config" mi.AdditionalConfig with
      | error e => simp [h1, h2, h3] at h
      | ok config =>
        simp only [h1, h2, h3, Except.ok.injEq] at h
        exact ⟨time, template, config, rfl, rfl, rfl, h.symm⟩

theorem marshalMessageSegment_ok (s : MessageSegment) (j : JSON)
    (h : marshalMessageSegment s = .ok j) :
    ∃ data, marshalValue s.Data = .ok data ∧
      j = .obj [("type", .str (GoString.toValid s.Type_)), ("data", data)] := by
  simp only [marshalMessageSegment] at h
  cases hd : marshalValue s.Data with
  | error e => simp [hd] at h
  | ok data =>
    simp only [hd, Except.ok.injEq] at h
    exact ⟨data, rfl, h.symm⟩

theorem marshalMessageBase_ok (mb : MessageBase) (j : JSON) (h : marshalMessageBase mb = .ok j) :
    ∃ info segment,
      marshalMessageInfo mb.MessageInfo = .ok info ∧
      marshalMessageSegment mb.MessageSegment = .ok segment ∧
      j = .obj ([("message_info", info), ("message_segment", segment)]
        ++ omitEmptyString "raw_message" mb.RawMessage) := by
  simp only [marshalMessageBase] at h
  cases h1 : marshalMessageInfo mb.MessageInfo with
  | error e => simp [h1] at h
  | ok info =>
    cases h2 : marshalMessageSegment mb.MessageSegment with
    | error e => simp [h1, h2] at h
    | ok segment =>
      simp only [h1, h2, Except.ok.injEq] at h
      exact ⟨info, segment, rfl, rfl, h.symm⟩

theorem ToJSON_ok (mb : MessageBase) (p : Payload) (h : ToJSON mb = .ok p) :
    ∃ j, marshalMessageBase mb = .ok j ∧ p = some j := by
  simp only [ToJSON, jsonMarshal] at h
  cases hj : marshalMessageBase mb with
  | error e => simp [hj] at h
  | ok j =>
    simp only [hj, Except.ok.injEq] at h
    exact ⟨j, rfl, h.symm⟩

/-! ## Decoding what the encoder emits -/

theorem decodeFields_append {α : Type} (step : α → String → JSON → Except String α)
    (a b : List (String × JSON)) (x : α) :
    decodeFields step (a ++ b) x =
      match decodeFields step a x with
      | .ok y => decodeFields step b y
      | .error e => .error e := by
  induction a generalizing x with
  | nil => rfl
  | cons kv rest ih =>
    obtain ⟨k, v⟩ := kv
    simp only [List.cons_append, decodeFields]
    cases h : step x k v with
    | ok y => simp [ih]
    | error e => simp

theorem decodeStruct_obj {α : Type} (step : α → String → JSON → Except String α) (cur : α)
    (kvs : List (String × JSON)) :
    decodeStruct step cur (.obj kvs) = decodeFields step kvs cur := rfl

theorem decodePointer_marshalUserInfo (u : UserInfo) :
    decodePointer ⟨[], [], [], []⟩ stepUserInfo none (marshalUserInfo u)
      = .ok (some u.sanitize) := by
  obtain ⟨p, i, n, c⟩ := u
  by_cases hn : n = [] <;> by_cases hc : c = [] <;>
    simp [marshalUserInfo, decodePointer, omitEmptyString, decodeFields, stepUserInfo,
      decodeString, UserInfo.sanitize, GoString.sanitize, hn, hc]

theorem decodePointer_marshalGroupInfo (g : GroupInfo) :
    decodePointer ⟨[], [], []⟩ stepGroupInfo none (marshalGroupInfo g)
      = .ok (some g.sanitize) := by
  obtain ⟨p, i, n⟩ := g
  by_cases hn : n = [] <;>
    simp [marshalGroupInfo, decodePointer, omitEmptyString, decodeFields, stepGroupInfo,
      decodeString, GroupInfo.sanitize, GoString.sanitize, hn]

theorem decodeStrings_map_str (xs : List GoString) :
    decodeStrings (xs.map (fun s => JSON.str (GoString.toValid s)))
      = .ok (xs.map GoString.sanitize) := by
  induction xs with
  | nil => rfl
  | cons x xs ih => simp [decodeStrings, decodeString, GoString.sanitize, ih]

theorem decodePointer_marshalFormatInfo (f : FormatInfo) :
    decodePointer ⟨[], []⟩ stepFormatInfo none (marshalFormatInfo f)
      = .ok (some f.sanitize) := by
  obtain ⟨c, a⟩ := f
  by_cases hc : c = [] <;> by_cases ha : a = [] <;>
    simp [marshalFormatInfo, decodePointer, omitEmptyStrings, decodeFields, stepFormatInfo,
      decodeStringSlice, decodeStrings_map_str, FormatInfo.sanitize, hc, ha]

theorem decodePointer_marshalTemplateInfo (t : TemplateInfo) (j : JSON)
    (h : marshalTemplateInfo t = .ok j)
    (hdec : ∀ members, marshalEntries t.TemplateItems = .ok members →
      ∃ m, decodeEntries members [] = .ok m) :
    ∃ items, decodePointer ⟨[], [], false⟩ stepTemplateInfo none j
      = .ok (some ⟨items, GoString.sanitize t.TemplateName, t.TemplateDefault⟩) := by
  obtain ⟨l, hl, hj⟩ := marshalTemplateInfo_ok t j h
  obtain ⟨m, n, d⟩ := t
  subst hj
  rcases omitEmptyMap_ok _ _ _ hl with ⟨_, hl'⟩ | ⟨_, members, hm, hl'⟩
  · subst hl'
    refine ⟨[], ?_⟩
    by_cases hn : n = [] <;> cases d <;>
      simp [decodePointer, omitEmptyString, decodeFields, stepTemplateInfo, decodeString,
        decodeBool, GoString.sanitize, hn]
  · subst hl'
    obtain ⟨items, hitems⟩ := hdec members hm
    refine ⟨items, ?_⟩
    by_cases hn : n = [] <;> cases d <;>
      simp [decodePointer, omitEmptyString, decodeFields, stepTemplateInfo, decodeString,
        decodeBool, decodeMap, GoString.sanitize, hn, hitems]

theorem chunk_message_id (p t u g f ti ac) (s : GoString) :
    decodeFields stepMessageInfo (omitEmptyString "message_id" s) ⟨p, [], t, u, g, f, ti, ac⟩
      = .ok ⟨p, GoString.sanitize s, t, u, g, f, ti, ac⟩ := by
  by_cases h : s = [] <;>
    simp [omitEmptyString, decodeFields, stepMessageInfo, decodeString, GoString.sanitize, h]

theorem chunk_time (p i u g f ti ac) (t : Float64) (l : List (String × JSON))
    (h : omitZeroFloat "time" t = .ok l) :
    decodeFields stepMessageInfo l ⟨p, i, .finite 0, u, g, f, ti, ac⟩
      = .ok ⟨p, i, t, u, g, f, ti, ac⟩ := by
  obtain ⟨q, ht, hl⟩ := omitZeroFloat_ok _ _ _ h
  subst ht hl
  by_cases hq : q = 0 <;> simp [decodeFields, stepMessageInfo, decodeFloat64, hq]

theorem chunk_user_info (p i t g f ti ac) (u : Option UserInfo) :
    decodeFields stepMessageInfo (omitNil "user_info" marshalUserInfo u)
        ⟨p, i, t, none, g, f, ti, ac⟩
      = .ok ⟨p, i, t, u.map UserInfo.sanitize, g, f, ti, ac⟩ := by
  cases u <;> simp [omitNil, decodeFields, stepMessageInfo, decodePointer_marshalUserInfo]

theorem chunk_group_info (p i t u f ti ac) (g : Option GroupInfo) :
    decodeFields stepMessageInfo (omitNil "group_info" marshalGroupInfo g)
        ⟨p, i, t, u, none, f, ti, ac⟩
      = .ok ⟨p, i, t, u, g.map GroupInfo.sanitize, f, ti, ac⟩ := by
  cases g <;> simp [omitNil, decodeFields, stepMessageInfo, decodePointer_marshalGroupInfo]

theorem chunk_format_info (p i t u g ti ac) (f : Option FormatInfo) :
    decodeFields stepMessageInfo (omitNil "format_info" marshalFormatInfo f)
        ⟨p, i, t, u, g, none, ti, ac⟩
      = .ok ⟨p, i, t, u, g, f.map FormatInfo.sanitize, ti, ac⟩ := by
  cases f <;> simp [omitNil, decodeFields, stepMessageInfo, decodePointer_marshalFormatInfo]

theorem chunk_template_info (p i t u g f ac) (ti : Option TemplateInfo)
    (l : List (String × JSON)) (h : omitNilTemplateInfo ti = .ok l)
    (hdec : ∀ t, ti = some t → ∀ members, marshalEntries t.TemplateItems = .ok members →
      ∃ m, decodeEntries members [] = .ok m) :
    ∃ ti', decodeFields stepMessageInfo l ⟨p, i, t, u, g, f, none, ac⟩
      = .ok ⟨p, i, t, u, g, f, ti', ac⟩ := by
  rcases omitNilTemplateInfo_ok _ _ h with ⟨_, hl⟩ | ⟨x, j, hx, hj, hl⟩
  · subst hl
    exact ⟨none, by simp [decodeFields]⟩
  · subst hl
    obtain ⟨items, hd⟩ := decodePointer_marshalTemplateInfo x j hj (hdec x hx)
    exact ⟨some ⟨items, GoString.sanitize x.TemplateName, x.TemplateDefault⟩,
      by simp [decodeFields, stepMessageInfo, hd]⟩

theorem chunk_additional_config (p i t u g f ti) (ac : List (GoString × GoValue))
    (l : List (String × JSON)) (h : omitEmptyMap "additional_config" ac = .ok l)
    (hdec : ∀ members, marshalEntries ac = .ok members →
      ∃ m, decodeEntries members [] = .ok m) :
    ∃ ac', decodeFields stepMessageInfo l ⟨p, i, t, u, g, f, ti, []⟩
      = .ok ⟨p, i, t, u, g, f, ti, ac'⟩ := by
  rcases omitEmptyMap_ok _ _ _ h with ⟨_, hl⟩ | ⟨_, members, hm, hl⟩
  · subst hl
    exact ⟨[], by simp [decodeFields]⟩
  · subst hl
    obtain ⟨m, hd⟩ := hdec members hm
    exact ⟨m, by simp [decodeFields, stepMessageInfo, decodeMap, hd]⟩

/-- Decoding the encoding of a `MessageInfo` into the zero value, the extension
maps being read back without error, gives back the time, and platform, message
id, user info, group info and format info with each byte that is not valid
UTF-8 replaced by U+FFFD. -/
theorem decodeStruct_marshalMessageInfo (mi : MessageInfo) (j : JSON)
    (h : marshalMessageInfo mi = .ok j)
    (hac : ∀ members, marshalEntries mi.AdditionalConfig = .ok members →
      ∃ m, decodeEntries members [] = .ok m)
    (hti : ∀ t, mi.TemplateInfo = some t →
      ∀ members, marshalEntries t.TemplateItems = .ok members →
        ∃ m, decodeEntries members [] = .ok m) :
    ∃ ti ac, decodeStruct stepMessageInfo zeroMessageBase.MessageInfo j
      = .ok ⟨GoString.sanitize mi.Platform, GoString.sanitize mi.MessageID, mi.Time,
          mi.UserInfo.map UserInfo.sanitize, mi.GroupInfo.map GroupInfo.sanitize,
          mi.FormatInfo.map FormatInfo.sanitize, ti, ac⟩ := by
  obtain ⟨time, template, config, h1, h2, h3, hj⟩ := marshalMessageInfo_ok mi j h
  obtain ⟨p, i, t, u, g, f, ti, ac⟩ := mi
  subst hj
  obtain ⟨ti', hti⟩ := chunk_template_info (GoString.sanitize p) (GoString.sanitize i) t
    (u.map UserInfo.sanitize) (g.map GroupInfo.sanitize) (f.map FormatInfo.sanitize) []
    ti template h2 hti
  obtain ⟨ac', hac⟩ := chunk_additional_config (GoString.sanitize p) (GoString.sanitize i) t
    (u.map UserInfo.sanitize) (g.map GroupInfo.sanitize) (f.map FormatInfo.sanitize) ti'
    ac config h3 hac
  refine ⟨ti', ac', ?_⟩
  have ht := fun p i u g f ti ac => chunk_time p i u g f ti ac t time h1
  have hfold : ∀ g : GoString, GoString.ofString (GoString.toValid g) = GoString.sanitize g :=
    fun _ => rfl
  simp [decodeStruct_obj, zeroMessageBase, decodeFields_append, decodeFields,
    stepMessageInfo, decodeString, chunk_message_id, ht, chunk_user_info,
    chunk_group_info, chunk_format_info, hti, hac, hfold]

theorem decodeStruct_marshalMessageSegment (cur s : MessageSegment) (j : JSON)
    (h : marshalMessageSegment s = .ok j)
    (hdec : ∀ data, marshalValue s.Data = .ok data → ∃ w, decodeInterface data = .ok w) :
    ∃ data w, marshalValue s.Data = .ok data ∧ decodeInterface data = .ok w ∧
      decodeStruct stepMessageSegment cur j = .ok ⟨GoString.sanitize s.Type_, w⟩ := by
  obtain ⟨data, hd, hj⟩ := marshalMessageSegment_ok s j h
  obtain ⟨w, hw⟩ := hdec data hd
  subst hj
  exact ⟨data, w, hd, hw, by
    simp [decodeStruct_obj, decodeFields, stepMessageSegment, decodeString, hw,
      GoString.sanitize]⟩

/-- The shape of every decoded encoding: when what the encoder writes for the
extension maps and for the content data is read back without error, the
envelope is decoded again, with the same time, with platform, message id, user
info, group info, format info, raw message and content type in which each byte
that is not valid UTF-8 is replaced by U+FFFD, and with the content data passed
through the encoder and the `interface{}` decoder. -/
theorem roundTrip_shape (mb : MessageBase) (jsonStr : Payload) (h : ToJSON mb = .ok jsonStr)
    (hac : ∀ members, marshalEntries mb.MessageInfo.AdditionalConfig = .ok members →
      ∃ m, decodeEntries members [] = .ok m)
    (hti : ∀ t, mb.MessageInfo.TemplateInfo = some t →
      ∀ members, marshalEntries t.TemplateItems = .ok members →
        ∃ m, decodeEntries members [] = .ok m)
    (hdec : ∀ data, marshalValue mb.MessageSegment.Data = .ok data →
      ∃ w, decodeInterface data = .ok w) :
    ∃ ti ac data w, marshalValue mb.MessageSegment.Data = .ok data ∧
      decodeInterface data = .ok w ∧
      FromJSON jsonStr = .ok
        ⟨⟨GoString.sanitize mb.MessageInfo.Platform, GoString.sanitize mb.MessageInfo.MessageID,
            mb.MessageInfo.Time, mb.MessageInfo.UserInfo.map UserInfo.sanitize,
            mb.MessageInfo.GroupInfo.map GroupInfo.sanitize,
            mb.MessageInfo.FormatInfo.map FormatInfo.sanitize, ti, ac⟩,
          ⟨GoString.sanitize mb.MessageSegment.Type_, w⟩,
          GoString.sanitize mb.RawMessage⟩ := by
  obtain ⟨j, hj, hp⟩ := ToJSON_ok mb jsonStr h
  obtain ⟨info, segment, hinfo, hseg, hj'⟩ := marshalMessageBase_ok mb j hj
  obtain ⟨mi, seg, raw⟩ := mb
  obtain ⟨ti, ac, hmi⟩ := decodeStruct_marshalMessageInfo mi info hinfo hac hti
  obtain ⟨data, w, hd, hw, hs⟩ := decodeStruct_marshalMessageSegment zeroMessageSegment seg
    segment hseg hdec
  refine ⟨ti, ac, data, w, hd, hw, ?_⟩
  subst hp hj'
  have hzero : zeroMessageBase.MessageInfo = ⟨[], [], .finite 0, none, none, none, none, []⟩ :=
    rfl
  rw [hzero] at hmi
  by_cases hr : raw = [] <;>
    simp [FromJSON, jsonUnmarshal, decodeStruct_obj, decodeFields, stepMessageBase,
      zeroMessageBase, omitEmptyString, decodeString, hmi, hs, hr, GoString.sanitize]

/-! ## When the encoder succeeds -/

theorem omitEmptyMap_isOk (k : String) (m : List (GoString × GoValue)) :
    (∃ l, omitEmptyMap k m = .ok l) ↔ ∃ members, marshalEntries m = .ok members := by
  cases m with
  | nil => exact ⟨fun _ => ⟨[], rfl⟩, fun _ => ⟨[], rfl⟩⟩
  | cons x xs =>
    cases hm : marshalEntries (x :: xs) with
    | error e => simp [omitEmptyMap, hm]
    | ok members => simp [omitEmptyMap, hm]

theorem marshalTemplateInfo_isOk (t : TemplateInfo) :
    (∃ j, marshalTemplateInfo t = .ok j) ↔
      ∃ members, marshalEntries t.TemplateItems = .ok members := by
  rw [← omitEmptyMap_isOk "template_items"]
  cases h : omitEmptyMap "template_items" t.TemplateItems with
  | error e => simp [marshalTemplateInfo, h]
  | ok l => simp [marshalTemplateInfo, h]

theorem omitNilTemplateInfo_isOk (p : Option TemplateInfo) :
    (∃ l, omitNilTemplateInfo p = .ok l) ↔
      ∀ t, p = some t → ∃ members, marshalEntries t.TemplateItems = .ok members := by
  cases p with
  | none => simp [omitNilTemplateInfo]
  | some t =>
    simp only [Option.some.injEq, forall_eq']
    rw [← marshalTemplateInfo_isOk]
    cases h : marshalTemplateInfo t with
    | error e => simp [omitNilTemplateInfo, h]
    | ok j => simp [omitNilTemplateInfo, h]

theorem omitZeroFloat_isOk (k : String) (t : Float64) :
    (∃ l, omitZeroFloat k t = .ok l) ↔ ∃ q, t = .finite q := by
  cases t with
  | finite q => by_cases hq : q = 0 <;> simp [omitZeroFloat, hq]
  | posInf => simp [omitZeroFloat]
  | negInf => simp [omitZeroFloat]
  | nan => simp [omitZeroFloat]

/-- `ToJSON` returns a text exactly when the time is finite and the extension
maps and the content data are encoded without error. -/
theorem ToJSON_isOk (mb : MessageBase) :
    (∃ jsonStr, ToJSON mb = .ok jsonStr) ↔
      Encodable mb ∧ ∃ j, marshalValue mb.MessageSegment.Data = .ok j := by
  obtain ⟨⟨p, i, t, u, g, f, ti, ac⟩, ⟨ty, d⟩, raw⟩ := mb
  have h1 := omitZeroFloat_isOk "time" t
  have h2 := omitNilTemplateInfo_isOk ti
  have h3 := omitEmptyMap_isOk "additional_config" ac
  simp only [Encodable]
  rw [← h1, ← h2, ← h3]
  cases ht : omitZeroFloat "time" t with
  | error e => simp [ToJSON, jsonMarshal, marshalMessageBase, marshalMessageInfo, ht]
  | ok time =>
    cases hti : omitNilTemplateInfo ti with
    | error e => simp [ToJSON, jsonMarshal, marshalMessageBase, marshalMessageInfo, ht, hti]
    | ok template =>
      cases hac : omitEmptyMap "additional_config" ac with
      | error e =>
        simp [ToJSON, jsonMarshal, marshalMessageBase, marshalMessageInfo, ht, hti, hac]
      | ok config =>
        cases hd : marshalValue d with
        | error e =>
          simp [ToJSON, jsonMarshal, marshalMessageBase, marshalMessageInfo,
            marshalMessageSegment, ht, hti, hac, hd]
        | ok j =>
          simp [ToJSON, jsonMarshal, marshalMessageBase, marshalMessageInfo,
            marshalMessageSegment, ht, hti, hac, hd]

/-! ## Segments through the encoder and the decoder -/

theorem GoString.sanitize_eq_ofString (g : GoString) (s : String)
    (h : GoString.sanitize g = GoString.ofString s) (hs : Char.ofNat 0xFFFD ∉ s.data) :
    g = GoString.ofString s := by
  have hv : GoString.toValid g = s := GoString.ofString_injective h
  have hvalid : GoString.isValid g = true := by
    simp only [GoString.isValid, List.all_eq_true]
    intro c hc
    cases c with
    | rune c => rfl
    | invalid b =>
      exfalso
      apply hs
      rw [← hv]
      simp only [GoString.toValid, List.mem_map]
      exact ⟨_, hc, rfl⟩
  rw [← GoString.sanitize_of_isValid g hvalid]
  exact h

theorem GoString.sanitize_eq_seglist (g : GoString) :
    GoString.sanitize g = GoString.ofString "seglist" ↔ g = GoString.ofString "seglist" := by
  constructor
  · intro h
    exact GoString.sanitize_eq_ofString g "seglist" h (by decide)
  · intro h
    rw [h]
    exact GoString.sanitize_ofString _

theorem GoString.sanitize_eq_text (g : GoString) :
    GoString.sanitize g = GoString.ofString "text" ↔ g = GoString.ofString "text" := by
  constructor
  · intro h
    exact GoString.sanitize_eq_ofString g "text" h (by decide)
  · intro h
    rw [h]
    exact GoString.sanitize_ofString _

/-- The decoded form of a listed segment: the map holding its type and data. -/
theorem decodeInterface_segment_object (t d : String) :
    decodeInterface (.obj [("type", .str t), ("data", .str d)])
      = .ok (.map [(GoString.ofString "data", .string (GoString.ofString d)),
          (GoString.ofString "type", .string (GoString.ofString t))]) := by
  have h1 : GoString.ofString "data" ≠ GoString.ofString "type" := by decide
  have h2 : keyLt (GoString.ofString "data") (GoString.ofString "type") = true := by decide
  simp [decodeInterface, decodeEntries, mapStore, h1, h2]

theorem collectSegments_decoded_pairs (xs : List MessageSegment)
    (h : ∀ s ∈ xs, s.isStringLeaf = true) :
    ∃ js ws, marshalSegmentPairs (xs.map MessageSegment.toPair) = .ok js ∧
      decodeInterfaces js = .ok ws ∧
      collectSegments ws = xs.map MessageSegment.sanitize := by
  induction xs with
  | nil => exact ⟨[], [], rfl, rfl, rfl⟩
  | cons s rest ih =>
    have hs := h s (List.mem_cons_self _ _)
    have hrest : ∀ s ∈ rest, s.isStringLeaf = true :=
      fun x hx => h x (List.mem_cons_of_mem _ hx)
    obtain ⟨js, ws, h1, h2, h3⟩ := ih hrest
    obtain ⟨t, d⟩ := s
    cases d <;> simp [MessageSegment.isStringLeaf] at hs
    rename_i text
    refine ⟨.obj [("type", .str (GoString.toValid t)), ("data", .str (GoString.toValid text))]
        :: js,
      .map [(GoString.ofString "data", .string (GoString.sanitize text)),
          (GoString.ofString "type", .string (GoString.sanitize t))] :: ws, ?_, ?_, ?_⟩
    · simp only [List.map_cons, MessageSegment.toPair, marshalSegmentPairs, marshalValue]
      rw [h1]
    · simp [decodeInterfaces, decodeInterface_segment_object, h2, GoString.sanitize]
    · simp [collectSegments, jsonMarshal, jsonUnmarshal, marshalValue, marshalEntries,
        decodeStruct_obj, decodeFields, stepMessageSegment, decodeString, decodeInterface,
        zeroMessageSegment, h3, MessageSegment.sanitize, GoString.sanitize]

theorem toPair_injective : Function.Injective MessageSegment.toPair := by
  intro a b h
  obtain ⟨ta, da⟩ := a
  obtain ⟨tb, db⟩ := b
  simp [MessageSegment.toPair] at h
  simp [h]

theorem NewSegList_some_inj (segments : Slice MessageSegment) (xs : List MessageSegment)
    (h : NewSegList (some xs) = NewSegList segments) : segments = some xs := by
  cases segments with
  | none => simp [NewSegList] at h
  | some ys =>
    simp [NewSegList] at h
    have := (List.map_injective_iff.mpr toPair_injective) h
    simp [this]

theorem isStringLeaf_type (s : MessageSegment) (h : s.isStringLeaf = true) :
    s.Type_ ≠ GoString.ofString "seglist" := by
  simp [MessageSegment.isStringLeaf] at h
  exact h.1

theorem messageSegment_sanitize_of_isValid (s : MessageSegment) (h : s.isValid = true) :
    s.sanitize = s := by
  obtain ⟨t, d⟩ := s
  simp only [MessageSegment.isValid, Bool.and_eq_true] at h
  cases d <;>
    simp_all [MessageSegment.sanitize, GoString.sanitize_of_isValid]

theorem map_sanitize_of_isValid (xs : List MessageSegment)
    (h : ∀ s ∈ xs, s.isValid = true) : xs.map MessageSegment.sanitize = xs := by
  induction xs with
  | nil => rfl
  | cons s rest ih =>
    simp only [List.map_cons]
    rw [messageSegment_sanitize_of_isValid s (h s (List.mem_cons_self _ _)),
      ih (fun x hx => h x (List.mem_cons_of_mem _ hx))]

/-- The content data of a valid envelope is encoded without error, and what is
written for it is read back without error. -/
theorem validEnvelope_marshalValue (mb : MessageBase) (h : ValidEnvelope mb) :
    ∃ j w, marshalValue mb.MessageSegment.Data = .ok j ∧ decodeInterface j = .ok w := by
  rcases h with hleaf | ⟨segments, hseg, hall⟩
  · obtain ⟨mi, ⟨t, d⟩, raw⟩ := mb
    cases d <;> simp [MessageSegment.isStringLeaf] at hleaf
    exact ⟨_, _, rfl, rfl⟩
  · rw [hseg]
    cases segments with
    | none => exact ⟨_, _, rfl, rfl⟩
    | some xs =>
      obtain ⟨js, ws, h1, h2, _⟩ := collectSegments_decoded_pairs xs (by simpa using hall)
      exact ⟨.arr js, .slice ws, by simp [NewSegList, marshalValue, h1],
        by simp [decodeInterface, h2]⟩

theorem validEnvelope_decodes (mb : MessageBase) (h : ValidEnvelope mb) :
    ∀ data, marshalValue mb.MessageSegment.Data = .ok data →
      ∃ w, decodeInterface data = .ok w := by
  intro data hd
  obtain ⟨j, w, hj, hw⟩ := validEnvelope_marshalValue mb h
  rw [hj, Except.ok.injEq] at hd
  subst hd
  exact ⟨w, hw⟩

/-- C1 (amended). For every valid envelope, `ToJSON` returns a text exactly
when the time is finite and the extension maps are encoded without error. On
the text it returns, when what is written for the extension maps is read back
by the decoder without error, `FromJSON` succeeds and yields an envelope with
the same time, and with the platform, message id, user info, group info, raw
message and content type of the envelope in which each byte that is not valid
UTF-8 is replaced by U+FFFD. A leaf content is decoded to the same segment up
to that replacement, which `GetSegments` rejects as not being a segment list. A
content made by `NewSegList` from a non-nil slice is read back by `GetSegments`
as the listed segments, in order, up to that replacement. When the strings of
the envelope are valid UTF-8, nothing is replaced: the decoded metadata, raw
message, leaf content and listed segments are exactly those of the envelope. -/
theorem roundTrip_valid_envelope (mb : MessageBase) (h : ValidEnvelope mb) :
    ((∃ jsonStr, ToJSON mb = .ok jsonStr) ↔ Encodable mb) ∧
    ∀ jsonStr, ToJSON mb = .ok jsonStr → Redecodable mb →
      ∃ mb', FromJSON jsonStr = .ok mb' ∧
        mb'.MessageInfo.Time = mb.MessageInfo.Time ∧
        mb'.MessageInfo.Platform = GoString.sanitize mb.MessageInfo.Platform ∧
        mb'.MessageInfo.MessageID = GoString.sanitize mb.MessageInfo.MessageID ∧
        mb'.MessageInfo.UserInfo = mb.MessageInfo.UserInfo.map UserInfo.sanitize ∧
        mb'.MessageInfo.GroupInfo = mb.MessageInfo.GroupInfo.map GroupInfo.sanitize ∧
        mb'.RawMessage = GoString.sanitize mb.RawMessage ∧
        mb'.MessageSegment.Type_ = GoString.sanitize mb.MessageSegment.Type_ ∧
        (mb.MessageSegment.isStringLeaf = true →
          mb'.MessageSegment = mb.MessageSegment.sanitize ∧
            GetSegments mb' = .error "message segment is not a seglist") ∧
        (∀ xs, mb.MessageSegment = NewSegList (some xs) →
          GetSegments mb' = .ok (xs.map MessageSegment.sanitize)) ∧
        (ValidStrings mb →
          mb'.MessageInfo.Platform = mb.MessageInfo.Platform ∧
          mb'.MessageInfo.MessageID = mb.MessageInfo.MessageID ∧
          mb'.MessageInfo.UserInfo = mb.MessageInfo.UserInfo ∧
          mb'.MessageInfo.GroupInfo = mb.MessageInfo.GroupInfo ∧
          mb'.RawMessage = mb.RawMessage ∧
          mb'.MessageSegment.Type_ = mb.MessageSegment.Type_ ∧
          (mb.MessageSegment.isStringLeaf = true → mb'.MessageSegment = mb.MessageSegment) ∧
          (∀ xs, mb.MessageSegment = NewSegList (some xs) → GetSegments mb' = .ok xs)) := by
  constructor
  · rw [ToJSON_isOk]
    obtain ⟨j, _, hj, _⟩ := validEnvelope_marshalValue mb h
    exact ⟨fun hh => hh.1, fun hh => ⟨hh, j, hj⟩⟩
  intro jsonStr henc hre
  obtain ⟨ti, ac, data, w, hdata, hw, hrt⟩ := roundTrip_shape mb jsonStr henc hre.1 hre.2
    (validEnvelope_decodes mb h)
  have hleafPart : mb.MessageSegment.isStringLeaf = true →
      (⟨GoString.sanitize mb.MessageSegment.Type_, w⟩ : MessageSegment)
        = mb.MessageSegment.sanitize := by
    intro hleaf
    obtain ⟨mi, ⟨t, d⟩, raw⟩ := mb
    cases d <;> simp [MessageSegment.isStringLeaf] at hleaf
    simp only [marshalValue, Except.ok.injEq] at hdata
    subst hdata
    simp only [decodeInterface, Except.ok.injEq] at hw
    subst hw
    rfl
  have hlistPart : ∀ xs, mb.MessageSegment = NewSegList (some xs) →
      GoString.sanitize mb.MessageSegment.Type_ = GoString.ofString "seglist" ∧
        ∃ ws, w = .slice ws ∧ collectSegments ws = xs.map MessageSegment.sanitize := by
    intro xs hxs
    have hall : ∀ s ∈ xs, s.isStringLeaf = true := by
      rcases h with hleaf | ⟨segments, hseg, hall⟩
      · have hty := isStringLeaf_type _ hleaf
        rw [hxs] at hty
        simp [NewSegList] at hty
      · rw [hxs] at hseg
        have := NewSegList_some_inj segments xs hseg
        subst this
        simpa using hall
    obtain ⟨js, ws, h1, h2, h3⟩ := collectSegments_decoded_pairs xs hall
    rw [hxs] at hdata ⊢
    simp only [NewSegList, marshalValue, h1, Except.ok.injEq] at hdata
    subst hdata
    simp only [decodeInterface, h2, Except.ok.injEq] at hw
    subst hw
    exact ⟨by simp [NewSegList], ws, rfl, h3⟩
  refine ⟨_, hrt, rfl, rfl, rfl, rfl, rfl, rfl, rfl, ?_, ?_, ?_⟩
  · intro hleaf
    refine ⟨hleafPart hleaf, ?_⟩
    have hty := isStringLeaf_type _ hleaf
    have hty' : GoString.sanitize mb.MessageSegment.Type_ ≠ GoString.ofString "seglist" :=
      fun hh => hty ((GoString.sanitize_eq_seglist _).mp hh)
    simp [GetSegments, hty']
  · intro xs hxs
    obtain ⟨hty, ws, hws, hc⟩ := hlistPart xs hxs
    simp [GetSegments, hty, hws, hc]
  · intro hvalid
    obtain ⟨hp, hi, hu, hg, hraw, hseg, hlisted⟩ := hvalid
    have hty : GoString.sanitize mb.MessageSegment.Type_ = mb.MessageSegment.Type_ := by
      apply GoString.sanitize_of_isValid
      simp only [MessageSegment.isValid, Bool.and_eq_true] at hseg
      exact hseg.1
    refine ⟨GoString.sanitize_of_isValid _ hp, GoString.sanitize_of_isValid _ hi, ?_, ?_,
      GoString.sanitize_of_isValid _ hraw, hty, ?_, ?_⟩
    · cases hu' : mb.MessageInfo.UserInfo with
      | none => rfl
      | some u => simp [userInfo_sanitize_of_isValid u (hu u hu')]
    · cases hg' : mb.MessageInfo.GroupInfo with
      | none => rfl
      | some g => simp [groupInfo_sanitize_of_isValid g (hg g hg')]
    · intro hleaf
      show (⟨GoString.sanitize mb.MessageSegment.Type_, w⟩ : MessageSegment) = mb.MessageSegment
      rw [hleafPart hleaf]
      exact messageSegment_sanitize_of_isValid _ hseg
    · intro xs hxs
      obtain ⟨hty', ws, hws, hc⟩ := hlistPart xs hxs
      have hval : ∀ s ∈ xs, s.isValid = true := by
        intro s hs
        have := hlisted (xs.map MessageSegment.toPair) (by rw [hxs]; rfl) s.toPair
          (List.mem_map_of_mem _ hs)
        simpa [MessageSegment.ofPair, MessageSegment.toPair] using this
      simp [GetSegments, hty', hws, hc, map_sanitize_of_isValid xs hval]

/-- Instance of C1 (amended) at the envelope of one text segment `hello`. -/
theorem roundTrip_valid_envelope_witness :
    ValidEnvelope listEnvelope ∧
      ∃ jsonStr mb', ToJSON listEnvelope = .ok jsonStr ∧ FromJSON jsonStr = .ok mb' ∧
        GetSegments mb' = .ok [NewTextSegment "hello"] := by
  have hv : ValidEnvelope listEnvelope :=
    Or.inr ⟨some [NewTextSegment "hello"], rfl, by
      simp [NewTextSegment, MessageSegment.isStringLeaf]⟩
  have hs : ValidStrings listEnvelope := by
    refine ⟨rfl, rfl, ?_, ?_, rfl, rfl, ?_⟩
    · intro u hu
      cases hu
      rfl
    · intro g hg
      cases hg
    · intro xs hxs p hp
      cases hxs
      simp only [List.map, NewTextSegment, MessageSegment.toPair, List.mem_singleton] at hp
      subst hp
      rfl
  have hre : Redecodable listEnvelope := by
    constructor
    · intro members hm
      cases hm
      exact ⟨[], rfl⟩
    · intro t ht
      cases ht
  obtain ⟨mb', h1, _, _, _, _, _, _, _, _, _, h2⟩ :=
    (roundTrip_valid_envelope listEnvelope hv).2 _ rfl hre
  exact ⟨hv, _, mb', rfl, h1, (h2 hs).2.2.2.2.2.2.2 _ rfl⟩

/-- C1 (as stated) fails. The leaf envelope is valid and is decoded to itself,
its segment sequence in the data model is its content, yet `GetSegments`
on the decoded envelope is an error. The segment list made from the nil slice
is valid and is decoded, yet `GetSegments` on the decoded envelope is an
error. For the list of one text segment `GetSegments` fails before encoding and
succeeds after decoding. The leaf envelope with the time NaN is valid and
`ToJSON` fails on it, as it does on the leaf envelope whose extension map holds
a value that cannot be encoded. The leaf envelope whose extension map holds a
`json.Number` beyond the range of `float64` is valid and is encoded, and
`FromJSON` fails on the text. The leaf envelope whose text holds the byte
`0xff` is valid and is encoded and decoded, to a text that holds U+FFFD in its
place. -/
theorem roundTrip_getSegments_counterexample :
    (ValidEnvelope leafEnvelope ∧ roundTrip leafEnvelope = .ok leafEnvelope ∧
      contentSegments leafEnvelope = [NewTextSegment "hello"] ∧
      GetSegments leafEnvelope = .error "message segment is not a seglist") ∧
    (ValidEnvelope nilListEnvelope ∧ contentSegments nilListEnvelope = [] ∧
      ∃ mb', roundTrip nilListEnvelope = .ok mb' ∧
        GetSegments mb' = .error "invalid seglist data format") ∧
    (ValidEnvelope listEnvelope ∧
      GetSegments listEnvelope = .error "invalid seglist data format" ∧
      ∃ mb', roundTrip listEnvelope = .ok mb' ∧
        GetSegments mb' = .ok [NewTextSegment "hello"]) ∧
    (ValidEnvelope nanEnvelope ∧
      ToJSON nanEnvelope = .error "failed to marshal message to JSON") ∧
    (ValidEnvelope unsupportedConfigEnvelope ∧
      ToJSON unsupportedConfigEnvelope = .error "failed to marshal message to JSON") ∧
    (ValidEnvelope bigNumberEnvelope ∧
      ∃ jsonStr, ToJSON bigNumberEnvelope = .ok jsonStr ∧
        FromJSON jsonStr = .error "failed to unmarshal JSON to message") ∧
    (ValidEnvelope invalidTextEnvelope ∧
      ∃ mb', roundTrip invalidTextEnvelope = .ok mb' ∧
        mb'.MessageSegment = NewTextSegment "a\uFFFDb" ∧
        mb'.MessageSegment ≠ invalidTextEnvelope.MessageSegment) := by
  refine ⟨⟨Or.inl rfl, rfl, rfl, rfl⟩, ⟨Or.inr ⟨none, rfl, by simp⟩, rfl, _, rfl, rfl⟩,
    ⟨Or.inr ⟨some [NewTextSegment "hello"], rfl, by
      simp [NewTextSegment, MessageSegment.isStringLeaf]⟩, rfl, _, rfl, rfl⟩,
    ⟨Or.inl rfl, rfl⟩, ⟨Or.inl rfl, rfl⟩, ⟨Or.inl rfl, _, rfl, rfl⟩,
    ⟨Or.inl rfl, _, rfl, rfl, ?_⟩⟩
  have hne : NewTextSegment "a\uFFFDb" ≠ invalidTextEnvelope.MessageSegment := by
    intro h
    injection h with _ h2
    injection h2 with h3
    exact absurd h3 (by decide)
  exact hne

/-! ## The loop of `GetSegments` -/

theorem collectSegments_append (a b : List GoValue) :
    collectSegments (a ++ b) = collectSegments a ++ collectSegments b := by
  induction a with
  | nil => rfl
  | cons v rest ih =>
    simp only [List.cons_append, collectSegments, jsonMarshal]
    cases marshalValue v with
    | error e => simp [ih]
    | ok j =>
      simp only []
      cases hu : jsonUnmarshal stepMessageSegment zeroMessageSegment (some j) <;> simp [ih]

theorem decodeFields_type_error (kvs : List (GoString × GoValue))
    (members : List (String × JSON)) (cur : MessageSegment)
    (hm : marshalEntries kvs = .ok members)
    (h : match mapIndex kvs "type" with
      | some (.float64 _) => True
      | some (.bool _) => True
      | some (.slice _) => True
      | some (.map _) => True
      | _ => False) :
    ∃ e, decodeFields stepMessageSegment members cur = .error e := by
  induction kvs generalizing cur members with
  | nil => simp [mapIndex] at h
  | cons x rest ih =>
    obtain ⟨k, v⟩ := x
    simp only [marshalEntries] at hm
    cases hv : marshalValue v with
    | error e => simp [hv] at hm
    | ok j =>
      cases hr : marshalEntries rest with
      | error e => simp [hv, hr] at hm
      | ok members' =>
        simp only [hv, hr, Except.ok.injEq] at hm
        subst hm
        simp only [decodeFields]
        by_cases hk : k = GoString.ofString "type"
        · subst hk
          simp only [mapIndex, if_true] at h
          cases v with
          | float64 n =>
            cases n <;> simp [marshalValue] at hv
            subst hv
            simp [stepMessageSegment, decodeString]
          | bool b =>
            simp only [marshalValue, Except.ok.injEq] at hv
            subst hv
            simp [stepMessageSegment, decodeString]
          | slice xs =>
            simp only [marshalValue] at hv
            cases hxs : marshalValues xs with
            | error e => simp [hxs] at hv
            | ok js =>
              simp only [hxs, Except.ok.injEq] at hv
              subst hv
              simp [stepMessageSegment, decodeString]
          | map m =>
            simp only [marshalValue] at hv
            cases hxs : marshalEntries m with
            | error e => simp [hxs] at hv
            | ok js =>
              simp only [hxs, Except.ok.injEq] at hv
              subst hv
              simp [stepMessageSegment, decodeString]
          | nil => simp at h
          | string s => simp at h
          | nilSegments => simp at h
          | segments xs => simp at h
          | unsupported => simp at h
          | other j => simp at h
        · have hk' : ¬ (GoString.ofString "type" = k) := fun hh => hk hh.symm
          simp only [mapIndex, hk', if_false] at h
          cases hs : stepMessageSegment cur (GoString.toValid k) j with
          | error e => exact ⟨e, rfl⟩
          | ok y => exact ih members' y hr h

theorem collectSegments_rejected (bad : GoValue) (rest : List GoValue) (h : RejectedEntry bad) :
    collectSegments (bad :: rest) = collectSegments rest := by
  cases bad with
  | map kvs =>
    simp only [collectSegments, jsonMarshal, marshalValue]
    cases hm : marshalEntries kvs with
    | error e => rfl
    | ok members =>
      obtain ⟨e, he⟩ := decodeFields_type_error kvs members zeroMessageSegment hm h
      simp [jsonUnmarshal, decodeStruct_obj, he]
  | nil => simp [RejectedEntry] at h
  | nilSegments => simp [RejectedEntry] at h
  | segments xs => simp [RejectedEntry] at h
  | unsupported => simp [RejectedEntry] at h
  | other j => simp [RejectedEntry] at h
  | float64 n =>
    cases n <;> simp [collectSegments, jsonMarshal, jsonUnmarshal, marshalValue, decodeStruct]
  | string s => simp [collectSegments, jsonMarshal, jsonUnmarshal, marshalValue, decodeStruct]
  | bool b => simp [collectSegments, jsonMarshal, jsonUnmarshal, marshalValue, decodeStruct]
  | slice xs =>
    simp only [collectSegments, jsonMarshal, marshalValue]
    cases hm : marshalValues xs with
    | error e => rfl
    | ok js => simp [jsonUnmarshal, decodeStruct]

theorem canonical_segmentEntry (s : MessageSegment) (h : Canonical (segmentEntry s)) :
    GoString.isValid s.Type_ = true ∧ Canonical s.Data := by
  simp only [segmentEntry, Canonical, CanonicalEntries] at h
  exact ⟨h.2.2.2.2.1, h.2.1⟩

theorem collectSegments_entries (segs : List MessageSegment)
    (h : ∀ s ∈ segs, Canonical (segmentEntry s)) :
    collectSegments (segs.map segmentEntry) = segs := by
  induction segs with
  | nil => rfl
  | cons s rest ih =>
    obtain ⟨hty, hd⟩ := canonical_segmentEntry s (h s (List.mem_cons_self _ _))
    obtain ⟨j, hj, hdec⟩ := decodeInterface_marshalValue s.Data hd
    have hrest : ∀ s ∈ rest, Canonical (segmentEntry s) :=
      fun x hx => h x (List.mem_cons_of_mem _ hx)
    have hs : GoString.ofString (GoString.toValid s.Type_) = s.Type_ :=
      GoString.sanitize_of_isValid _ hty
    simp [segmentEntry, collectSegments, jsonMarshal, jsonUnmarshal, marshalValue,
      marshalEntries, decodeStruct_obj, decodeFields, stepMessageSegment, decodeString,
      zeroMessageSegment, hj, hdec, hs, ih hrest]

/-- C2 (amended). In a decoded envelope whose content is a segment list of N
entries, one of which cannot be decoded as a segment (a number, a string, a
boolean, an array, or an object whose `type` is not a string) while the other
N-1 are segment objects, `GetSegments` does not fail and returns exactly the
N-1 segments in their original order, wherever the rejected entry stands. -/
theorem getSegments_skips_rejected (mi : MessageInfo) (raw : GoString)
    (pre post : List MessageSegment) (bad : GoValue)
    (hbad : RejectedEntry bad) (hdata : ∀ s ∈ pre ++ post, Canonical (segmentEntry s)) :
    GetSegments ⟨mi, ⟨"seglist", .slice (pre.map segmentEntry ++ bad :: post.map segmentEntry)⟩,
        raw⟩
      = .ok (pre ++ post) := by
  have hpre : ∀ s ∈ pre, Canonical (segmentEntry s) :=
    fun s hs => hdata s (List.mem_append_left _ hs)
  have hpost : ∀ s ∈ post, Canonical (segmentEntry s) :=
    fun s hs => hdata s (List.mem_append_right _ hs)
  simp [GetSegments, collectSegments_append, collectSegments_rejected _ _ hbad,
    collectSegments_entries pre hpre, collectSegments_entries post hpost]

/-- Instance of C2 (amended): a number between two text segments. -/
theorem getSegments_skips_rejected_witness :
    GetSegments ⟨sampleInfo, ⟨"seglist", .slice ([NewTextSegment "a"].map segmentEntry ++
        .float64 (.finite 5) :: [NewTextSegment "b"].map segmentEntry)⟩, []⟩
      = .ok ([NewTextSegment "a"] ++ [NewTextSegment "b"]) :=
  getSegments_skips_rejected sampleInfo [] [NewTextSegment "a"] [NewTextSegment "b"]
    (.float64 (.finite 5)) trivial (by
      intro s hs
      simp only [List.singleton_append, List.mem_cons, List.mem_singleton, List.not_mem_nil,
        or_false] at hs
      rcases hs with hs | hs <;> subst hs <;>
        simp [NewTextSegment, segmentEntry, Canonical, CanonicalEntries] <;> decide)

/-- C2 (as stated) fails. A segment list with a `null` entry between two text
segments is decoded, and `GetSegments` returns three segments: the `null` entry
contributes a segment with empty type. The same holds for an object without a
type. -/
theorem getSegments_null_entry_counterexample :
    (∃ mb, FromJSON (seglistPayload (.arr [.obj [("type", .str "text"), ("data", .str "a")],
        .null, .obj [("type", .str "text"), ("data", .str "b")]])) = .ok mb ∧
      GetSegments mb = .ok [⟨"text", .string "a"⟩, ⟨[], .nil⟩, ⟨"text", .string "b"⟩]) ∧
    (∃ mb, FromJSON (seglistPayload (.arr [.obj [("type", .str "text"), ("data", .str "a")],
        .obj [("foo", .num (.float 1))], .obj [("type", .str "text"), ("data", .str "b")]]))
          = .ok mb ∧
      GetSegments mb = .ok [⟨"text", .string "a"⟩, ⟨[], .nil⟩, ⟨"text", .string "b"⟩]) :=
  ⟨⟨_, rfl, rfl⟩, ⟨_, rfl, rfl⟩⟩

/-- C3 (amended). `GetSegments` fails with the error of a content that is not
a segment list on every envelope whose content type is not `"seglist"`; on an
envelope whose content is a decoded segment list of segment objects it returns
the listed segments, in order, without error. -/
theorem getSegments_leaf_or_list (mb : MessageBase) :
    (mb.MessageSegment.Type_ ≠ "seglist" →
      GetSegments mb = .error "message segment is not a seglist") ∧
    (∀ segs : List MessageSegment,
      mb.MessageSegment = ⟨"seglist", .slice (segs.map segmentEntry)⟩ →
      (∀ s ∈ segs, Canonical (segmentEntry s)) → GetSegments mb = .ok segs) := by
  constructor
  · intro h
    simp [GetSegments, h]
  · intro segs hseg hdata
    simp [GetSegments, hseg, collectSegments_entries segs hdata]

/-- Instance of C3 (amended): a leaf envelope, and a decoded list of a text
and an image segment. -/
theorem getSegments_leaf_or_list_witness :
    GetSegments leafEnvelope = .error "message segment is not a seglist" ∧
    GetSegments ⟨sampleInfo, ⟨"seglist",
        .slice ([NewTextSegment "a", NewImageSegment "b"].map segmentEntry)⟩, []⟩
      = .ok [NewTextSegment "a", NewImageSegment "b"] :=
  ⟨(getSegments_leaf_or_list leafEnvelope).1 (by decide),
   (getSegments_leaf_or_list _).2 _ rfl (by
      intro s hs
      simp only [List.mem_cons, List.mem_singleton, List.not_mem_nil, or_false] at hs
      rcases hs with hs | hs <;> subst hs <;>
        simp [NewTextSegment, NewImageSegment, segmentEntry, Canonical, CanonicalEntries] <;>
        decide)⟩

/-- C3 (as stated) fails. On the envelope whose content is the leaf text
segment `hello`, `GetSegments` returns an error, not the one-element sequence
of the content. -/
theorem getSegments_leaf_counterexample :
    leafEnvelope.MessageSegment.Type_ ≠ "seglist" ∧
    GetSegments leafEnvelope = .error "message segment is not a seglist" ∧
    GetSegments leafEnvelope ≠ .ok [leafEnvelope.MessageSegment] := by
  refine ⟨by decide, rfl, ?_⟩
  rw [show GetSegments leafEnvelope = .error "message segment is not a seglist" from rfl]
  exact fun h => Except.noConfusion h

/-- C4 (code bug). On the envelope built by `NewSimpleTextMessage` the
specification text content is the text given, but `GetTextContent` returns the
empty string: `GetSegments` takes list data only in the decoded form and
rejects the slice stored by `NewSegList`. -/
theorem getTextContent_constructed_empty (now : ℚ)
    (platform messageID userID text : GoString) :
    specTextContent (NewSimpleTextMessage now platform messageID userID text) = text ∧
    GetSegments (NewSimpleTextMessage now platform messageID userID text)
      = .error "invalid seglist data format" ∧
    GetTextContent (NewSimpleTextMessage now platform messageID userID text) = [] := by
  refine ⟨?_, rfl, rfl⟩
  simp [specTextContent, contentSegments, NewSimpleTextMessage, NewMessageBase, NewSegList,
    NewTextSegment, MessageSegment.toPair, MessageSegment.ofPair, segmentText]

/-- C5 (amended). For every platform, message id, user id and text, the
envelope built by `NewSimpleTextMessage` is encoded by `ToJSON`, the result is
decoded by `FromJSON`, and on the decoded envelope `IsGroupMessage` is false,
`GetTextContent` is the text and `GetSenderID` the user id in which each byte
that is not valid UTF-8 is replaced by U+FFFD: exactly the text when the text
is valid UTF-8, exactly the user id when the user id is valid UTF-8. -/
theorem simple_text_scenario (now : ℚ) (platform messageID userID text : GoString) :
    ∃ jsonStr mb,
      ToJSON (NewSimpleTextMessage now platform messageID userID text) = .ok jsonStr ∧
      FromJSON jsonStr = .ok mb ∧
      GetTextContent mb = GoString.sanitize text ∧ IsGroupMessage mb = false ∧
      GetSenderID mb = GoString.sanitize userID ∧
      (GoString.isValid text = true → GetTextContent mb = text) ∧
      (GoString.isValid userID = true → GetSenderID mb = userID) := by
  have hleaf : ∀ s ∈ [NewTextSegment text], s.isStringLeaf = true := by
    simp [NewTextSegment, MessageSegment.isStringLeaf]
  obtain ⟨js, ws, h1, h2, h3⟩ := collectSegments_decoded_pairs [NewTextSegment text] hleaf
  have hd :
      marshalValue (NewSimpleTextMessage now platform messageID userID text).MessageSegment.Data
        = .ok (.arr js) := by
    simp only [NewSimpleTextMessage, NewMessageBase, NewSegList, marshalValue, h1]
  obtain ⟨jsonStr, henc⟩ :=
    (ToJSON_isOk (NewSimpleTextMessage now platform messageID userID text)).mpr
      ⟨⟨⟨now, rfl⟩, ⟨[], rfl⟩, fun t ht => by cases ht⟩, _, hd⟩
  obtain ⟨ti, ac, data, w, hdata, hw, hrt⟩ := roundTrip_shape _ jsonStr henc
    (fun members hm => by cases hm; exact ⟨[], rfl⟩) (fun t ht => by cases ht)
    (fun data hdata => by
      rw [hd, Except.ok.injEq] at hdata
      subst hdata
      exact ⟨.slice ws, by simp [decodeInterface, h2]⟩)
  rw [hd, Except.ok.injEq] at hdata
  subst hdata
  simp only [decodeInterface, h2, Except.ok.injEq] at hw
  subst hw
  have htext : GetTextContent
      ⟨⟨GoString.sanitize platform, GoString.sanitize messageID, .finite now,
          some (UserInfo.sanitize ⟨platform, userID, [], []⟩), none, none, ti, ac⟩,
        ⟨GoString.sanitize (GoString.ofString "seglist"), .slice ws⟩, GoString.sanitize []⟩
      = GoString.sanitize text := by
    have hne : GoString.ofString "seglist" ≠ GoString.ofString "text" := by decide
    simp only [List.map] at h3
    simp [GetTextContent, GetSegments, hne, h3, appendText, MessageSegment.sanitize,
      NewTextSegment]
  refine ⟨jsonStr, _, henc, hrt, htext, rfl, rfl, ?_, ?_⟩
  · intro hv
    rw [← GoString.sanitize_of_isValid text hv]
    simpa using htext
  · intro hv
    exact GoString.sanitize_of_isValid userID hv

/-- Instance of C5 (amended): platform `x`, message `m1`, user `u1`, text
`hello`. -/
theorem simple_text_scenario_witness :
    ∃ jsonStr mb,
      ToJSON (NewSimpleTextMessage 1700000000 "x" "m1" "u1" "hello") = .ok jsonStr ∧
      FromJSON jsonStr = .ok mb ∧
      GetTextContent mb = "hello" ∧ IsGroupMessage mb = false ∧ GetSenderID mb = "u1" := by
  obtain ⟨jsonStr, mb, h1, h2, _, h4, _, h6, h7⟩ :=
    simple_text_scenario 1700000000 "x" "m1" "u1" "hello"
  exact ⟨jsonStr, mb, h1, h2, h6 rfl, h4, h7 rfl⟩

/-- C5 (as stated) fails. For the text of the bytes `a`, `0xff`, `b` the
envelope is encoded and decoded, and `GetTextContent` on the decoded envelope
holds U+FFFD in place of the byte `0xff`: it is not the text given. -/
theorem simple_text_invalid_counterexample :
    ∃ jsonStr mb,
      ToJSON (NewSimpleTextMessage 1700000000 "x" "m1" "u1" invalidText) = .ok jsonStr ∧
      FromJSON jsonStr = .ok mb ∧
      GetTextContent mb = "a\uFFFDb" ∧ GetTextContent mb ≠ invalidText :=
  ⟨_, _, rfl, rfl, rfl, by decide⟩

theorem lookupMember_append (a b : List (String × JSON)) (key : String) :
    lookupMember (a ++ b) key =
      match lookupMember a key with
      | some v => some v
      | none => lookupMember b key := by
  induction a with
  | nil => rfl
  | cons x rest ih =>
    obtain ⟨k, v⟩ := x
    by_cases h : k = key <;> simp [lookupMember, h, ih]

theorem lookupMember_omitEmptyString (k : String) (s : GoString) (key : String) :
    lookupMember (omitEmptyString k s) key =
      if k = key ∧ s ≠ [] then some (.str (GoString.toValid s)) else none := by
  by_cases hs : s = [] <;> by_cases hk : k = key <;> simp [omitEmptyString, lookupMember, hs, hk]

theorem lookupMember_omitNil {α : Type} (k : String) (enc : α → JSON) (p : Option α)
    (key : String) :
    lookupMember (omitNil k enc p) key = if k = key then p.map enc else none := by
  cases p <;> by_cases hk : k = key <;> simp [omitNil, lookupMember, hk]

theorem lookupMember_omitEmptyMap (k : String) (m : List (GoString × GoValue))
    (l : List (String × JSON)) (h : omitEmptyMap k m = .ok l) :
    ∃ members, marshalEntries m = .ok members ∧ ∀ key, lookupMember l key =
      if k = key ∧ m.isEmpty = false then some (.obj members) else none := by
  rcases omitEmptyMap_ok k m l h with ⟨hm, hl⟩ | ⟨hm, members, hmem, hl⟩
  · subst hm hl
    exact ⟨[], rfl, fun key => by simp [lookupMember]⟩
  · subst hl
    refine ⟨members, hmem, fun key => ?_⟩
    cases m with
    | nil => exact absurd rfl hm
    | cons x xs => by_cases hk : k = key <;> simp [lookupMember, hk]

theorem lookupMember_omitEmptyMap_other (k : String) (m : List (GoString × GoValue))
    (l : List (String × JSON)) (h : omitEmptyMap k m = .ok l) (key : String) (hk : k ≠ key) :
    lookupMember l key = none := by
  obtain ⟨members, _, hl⟩ := lookupMember_omitEmptyMap k m l h
  simp [hl, hk]

theorem lookupMember_time (t : Float64) (l : List (String × JSON))
    (h : omitZeroFloat "time" t = .ok l) (key : String) (hk : key ≠ "time") :
    lookupMember l key = none := by
  obtain ⟨q, _, hl⟩ := omitZeroFloat_ok _ _ _ h
  subst hl
  by_cases hq : q = 0 <;> simp [lookupMember, hq, Ne.symm hk]

theorem lookupMember_template (p : Option TemplateInfo) (l : List (String × JSON))
    (h : omitNilTemplateInfo p = .ok l) (key : String) (hk : key ≠ "template_info") :
    lookupMember l key = none := by
  rcases omitNilTemplateInfo_ok p l h with ⟨_, hl⟩ | ⟨t, j, _, _, hl⟩ <;> subst hl <;>
    simp [lookupMember, Ne.symm hk]

/-- C7 (amended). `ToJSON` returns a text exactly when the time is finite and
the extension maps and the content data are encoded without error. The text it
returns is determined by the envelope, and in it, every string being written
with U+FFFD in place of each byte that is not valid UTF-8: `raw_message` is
absent when the raw text is empty and present with its value otherwise;
`message_info` is present with `platform`; `additional_config` is absent when
the map is empty and present with its entries otherwise; for a present user
object `platform` and `user_id` are present, and `user_nickname` is absent when
the nickname is empty and present with its value otherwise; likewise
`platform`, `group_id` and `group_name` of a present group object;
`template_items` of a present template object is absent when the map is empty
and present with its entries otherwise. -/
theorem toJSON_omit_empty (mb : MessageBase) :
    ((∃ jsonStr, ToJSON mb = .ok jsonStr) ↔
      Encodable mb ∧ ∃ j, marshalValue mb.MessageSegment.Data = .ok j) ∧
    ∀ jsonStr, ToJSON mb = .ok jsonStr →
      ∃ out info config, jsonStr = some out ∧
        marshalEntries mb.MessageInfo.AdditionalConfig = .ok config ∧
        out.member "raw_message" =
          (if mb.RawMessage = [] then none
           else some (.str (GoString.toValid mb.RawMessage))) ∧
        out.member "message_info" = some info ∧
        info.member "platform" = some (.str (GoString.toValid mb.MessageInfo.Platform)) ∧
        info.member "additional_config" =
          (if mb.MessageInfo.AdditionalConfig.isEmpty then none else some (.obj config)) ∧
        (match mb.MessageInfo.UserInfo with
          | none => info.member "user_info" = none
          | some u => ∃ uj, info.member "user_info" = some uj ∧
              uj.member "platform" = some (.str (GoString.toValid u.Platform)) ∧
              uj.member "user_id" = some (.str (GoString.toValid u.UserID)) ∧
              uj.member "user_nickname" =
                (if u.UserNickname = [] then none
                 else some (.str (GoString.toValid u.UserNickname)))) ∧
        (match mb.MessageInfo.GroupInfo with
          | none => info.member "group_info" = none
          | some g => ∃ gj, info.member "group_info" = some gj ∧
              gj.member "platform" = some (.str (GoString.toValid g.Platform)) ∧
              gj.member "group_id" = some (.str (GoString.toValid g.GroupID)) ∧
              gj.member "group_name" =
                (if g.GroupName = [] then none
                 else some (.str (GoString.toValid g.GroupName)))) ∧
        (match mb.MessageInfo.TemplateInfo with
          | none => info.member "template_info" = none
          | some t => ∃ tj items, info.member "template_info" = some tj ∧
              marshalEntries t.TemplateItems = .ok items ∧
              tj.member "template_items" =
                (if t.TemplateItems.isEmpty then none else some (.obj items))) := by
  refine ⟨ToJSON_isOk mb, ?_⟩
  intro jsonStr henc
  obtain ⟨out, hout, hp⟩ := ToJSON_ok mb jsonStr henc
  obtain ⟨info, segment, hinfo, hseg, hj⟩ := marshalMessageBase_ok mb out hout
  obtain ⟨time, template, config, htime, htemplate, hconfig, hi⟩ :=
    marshalMessageInfo_ok mb.MessageInfo info hinfo
  obtain ⟨⟨p, i, t, u, g, f, ti, ac⟩, seg, raw⟩ := mb
  obtain ⟨members, hmembers, hlook⟩ := lookupMember_omitEmptyMap "additional_config" ac config
    hconfig
  have hT := lookupMember_time t time htime
  have hP := lookupMember_template ti template htemplate
  refine ⟨out, info, members, hp, hmembers, ?_⟩
  subst hj hi
  refine ⟨?_, ?_, ?_, ?_, ?_, ?_, ?_⟩
  · by_cases hr : raw = [] <;>
      simp [JSON.member, JSON.members, lookupMember, omitEmptyString, hr]
  · simp [JSON.member, JSON.members, lookupMember]
  · simp [JSON.member, JSON.members, lookupMember]
  · cases ac <;>
      simp [JSON.member, JSON.members, lookupMember_append, lookupMember,
        lookupMember_omitEmptyString, lookupMember_omitNil, hlook, hT, hP]
  · cases u with
    | none =>
      simp [JSON.member, JSON.members, lookupMember_append, lookupMember,
        lookupMember_omitEmptyString, lookupMember_omitNil, hlook, hT, hP]
    | some u =>
      refine ⟨marshalUserInfo u, ?_, ?_, ?_, ?_⟩
      · simp [JSON.member, JSON.members, lookupMember_append, lookupMember,
          lookupMember_omitEmptyString, lookupMember_omitNil, hlook, hT, hP]
      · simp [JSON.member, JSON.members, marshalUserInfo, lookupMember]
      · simp [JSON.member, JSON.members, marshalUserInfo, lookupMember]
      · by_cases hn : u.UserNickname = [] <;>
          simp [JSON.member, JSON.members, marshalUserInfo, lookupMember_append, lookupMember,
            lookupMember_omitEmptyString, hn]
  · cases g with
    | none =>
      simp [JSON.member, JSON.members, lookupMember_append, lookupMember,
        lookupMember_omitEmptyString, lookupMember_omitNil, hlook, hT, hP]
    | some g =>
      refine ⟨marshalGroupInfo g, ?_, ?_, ?_, ?_⟩
      · simp [JSON.member, JSON.members, lookupMember_append, lookupMember,
          lookupMember_omitEmptyString, lookupMember_omitNil, hlook, hT, hP]
      · simp [JSON.member, JSON.members, marshalGroupInfo, lookupMember]
      · simp [JSON.member, JSON.members, marshalGroupInfo, lookupMember]
      · by_cases hn : g.GroupName = [] <;>
          simp [JSON.member, JSON.members, marshalGroupInfo, lookupMember_append, lookupMember,
            lookupMember_omitEmptyString, hn]
  · cases ti with
    | none =>
      rcases omitNilTemplateInfo_ok _ _ htemplate with ⟨_, hl⟩ | ⟨x, j, hx, _, _⟩
      · subst hl
        simp [JSON.member, JSON.members, lookupMember_append, lookupMember,
          lookupMember_omitEmptyString, lookupMember_omitNil, hlook, hT]
      · cases hx
    | some x =>
      rcases omitNilTemplateInfo_ok _ _ htemplate with ⟨hx, _⟩ | ⟨x', tj, hx, htj, hl⟩
      · cases hx
      · cases hx
        subst hl
        obtain ⟨items, hitems, htj'⟩ := marshalTemplateInfo_ok x tj htj
        obtain ⟨im, him, hilook⟩ := lookupMember_omitEmptyMap "template_items" x.TemplateItems
          items hitems
        refine ⟨tj, im, ?_, him, ?_⟩ <;> subst htj'
        · simp [JSON.member, JSON.members, lookupMember_append, lookupMember,
            lookupMember_omitEmptyString, lookupMember_omitNil, hlook, hT]
        · simp only [JSON.member, JSON.members, lookupMember_append, hilook]
          cases hx : x.TemplateItems.isEmpty <;> cases hd : x.TemplateDefault <;>
            simp [lookupMember_omitEmptyString, lookupMember]

/-- Instance of C7 (amended) at the envelope of the scenario: `ToJSON` returns
a text, in which `raw_message` is absent and the platform is `x`. -/
theorem toJSON_omit_empty_witness :
    ∃ out info, ToJSON listEnvelope = .ok (some out) ∧
      out.member "raw_message" = none ∧
      out.member "message_info" = some info ∧
      info.member "platform" = some (.str "x") := by
  obtain ⟨out, info, _, h1, _, h3, h4, h5, _⟩ := (toJSON_omit_empty listEnvelope).2 _ rfl
  cases h1
  exact ⟨_, info, rfl, h3, h4, h5⟩

/-- C7 (as stated) fails. The envelope with the time NaN has a nickname that is
not empty, and `ToJSON` returns an error and no output; so it does on the
envelope whose extension map holds a value that cannot be encoded. For the
nickname of the single byte `0xff`, the value of `user_nickname` in the output
is U+FFFD, not the nickname. -/
theorem toJSON_error_counterexample :
    (nanEnvelope.MessageInfo.UserInfo = some ⟨"x", "u1", "nick", []⟩ ∧
      ToJSON nanEnvelope = .error "failed to marshal message to JSON") ∧
    (unsupportedConfigEnvelope.MessageInfo.AdditionalConfig
        = [(GoString.ofString "k", GoValue.unsupported)] ∧
      ToJSON unsupportedConfigEnvelope = .error "failed to marshal message to JSON") ∧
    (∃ out info uj, ToJSON invalidNicknameEnvelope = .ok (some out) ∧
      out.member "message_info" = some info ∧
      info.member "user_info" = some uj ∧
      uj.member "user_nickname" = some (.str "\uFFFD")) :=
  ⟨⟨rfl, rfl⟩, ⟨rfl, rfl⟩, ⟨_, _, _, rfl, rfl, rfl, rfl⟩⟩

theorem SyncMap.load_store_self {α : Type} (m : SyncMap α) (k : GoString) (v : α) :
    (m.Store k v).Load k = some v := by
  induction m with
  | nil => simp [SyncMap.Store, SyncMap.Load]
  | cons x rest ih =>
    obtain ⟨k', v'⟩ := x
    by_cases h : k = k' <;> simp [SyncMap.Store, SyncMap.Load, h, ih]

theorem SyncMap.load_delete_self {α : Type} (m : SyncMap α) (k : GoString) :
    (m.Delete k).Load k = none := by
  induction m with
  | nil => rfl
  | cons x rest ih =>
    obtain ⟨k', v'⟩ := x
    by_cases h : k = k'
    · subst h
      simp [SyncMap.Delete, ih]
    · simp [SyncMap.Delete, SyncMap.Load, h, ih]

theorem SyncMap.length_store {α : Type} (m : SyncMap α) (k : GoString) (v : α) :
    (m.Store k v).length = if (m.Load k).isSome then m.length else m.length + 1 := by
  induction m with
  | nil => simp [SyncMap.Store, SyncMap.Load]
  | cons x rest ih =>
    obtain ⟨k', v'⟩ := x
    by_cases h : k = k'
    · simp [SyncMap.Store, SyncMap.Load, h]
    · simp only [SyncMap.Store, SyncMap.Load, h, if_false, List.length_cons, ih]
      split_ifs <;> rfl

theorem foldl_count {α : Type} (l : List α) (n : ℕ) :
    l.foldl (fun count _ => count + 1) n = n + l.length := by
  induction l generalizing n with
  | nil => rfl
  | cons x rest ih => simp [List.foldl, ih]; omega

theorem Stats_eq_length (rm : ResponseManager) : Stats rm = rm.responses.length := by
  simp [Stats, foldl_count]

/-- C8 (amended). `PutResponse` of a payload whose `echo` is the string `id`
returns the nil error whether or not `id` has a pending slot, and stores the
payload under `id` in the table of responses. When `id` has a pending slot
(its channel being empty), the payload is put into the channel of the waiter,
who then receives it, and the slot is removed; when `id` has no pending slot,
no slot and no channel changes. -/
theorem putResponse_delivers (rm : ResponseManager) (now : ℤ) (response : ResponseData)
    (echoID : GoString) (hecho : mapIndex response "echo" = some (.string echoID)) :
    (∀ ch, rm.responseChans.Load echoID = some ch → rm.channels[ch]? = some none →
      PutResponse rm now response =
        (.returned none,
          { responses := rm.responses.Store echoID ⟨response, now⟩
            responseChans := rm.responseChans.Delete echoID
            channels := rm.channels.set ch (some response)
            heartbeatInterval := rm.heartbeatInterval }) ∧
      (PutResponse rm now response).2.responseChans.Load echoID = none ∧
      ∃ rm', GetResponse_select (PutResponse rm now response).2 echoID ch .received
        = some (.ok response, rm')) ∧
    (rm.responseChans.Load echoID = none →
      PutResponse rm now response =
        (.returned none, { rm with responses := rm.responses.Store echoID ⟨response, now⟩ })) := by
  constructor
  · intro ch hch hbuf
    have hput : PutResponse rm now response =
        (.returned none,
          { responses := rm.responses.Store echoID ⟨response, now⟩
            responseChans := rm.responseChans.Delete echoID
            channels := rm.channels.set ch (some response)
            heartbeatInterval := rm.heartbeatInterval }) := by
      simp [PutResponse, hecho, hch, hbuf]
    have hlt : ch < rm.channels.length := by
      rcases Nat.lt_or_ge ch rm.channels.length with h | h
      · exact h
      · rw [List.getElem?_eq_none h] at hbuf
        exact absurd hbuf (by simp)
    refine ⟨hput, ?_, ?_⟩
    · rw [hput]
      exact SyncMap.load_delete_self _ _
    · rw [hput]
      simp [GetResponse_select, List.getElem?_set, hlt]
  · intro hnone
    simp [PutResponse, hecho, hnone]

/-- Instance of C8 (amended): the delivery for `req-1` right after its
registration. -/
theorem putResponse_delivers_witness :
    PutResponse registeredManager 5 sampleResponse =
      (.returned none,
        { responses := [(GoString.ofString "req-1", ⟨sampleResponse, 5⟩)]
          responseChans := []
          channels := [some sampleResponse]
          heartbeatInterval := 30000000000 }) :=
  ((putResponse_delivers registeredManager 5 sampleResponse "req-1" rfl).1 0 rfl rfl).1

/-- C8 (as stated) fails. After `req-1` is registered, the first delivery and
the second delivery both return the nil error, as does a delivery to a manager
where nothing is registered: the result of `PutResponse` does not tell whether
the identifier was pending. -/
theorem putResponse_result_counterexample :
    registeredManager.responseChans.Load "req-1" = some 0 ∧
    (PutResponse registeredManager 5 sampleResponse).1 = .returned none ∧
    (PutResponse registeredManager 5 sampleResponse).2.responseChans.Load "req-1" = none ∧
    (PutResponse (PutResponse registeredManager 5 sampleResponse).2 6 sampleResponse).1
      = .returned none ∧
    (PutResponse (NewResponseManager 30000000000) 5 sampleResponse).1 = .returned none := by
  refine ⟨rfl, rfl, rfl, rfl, rfl⟩

/-- C9 (amended). `PutResponse` for an identifier that has no pending slot
returns the nil error and changes neither the pending slots nor any channel,
but it does store the payload, with the current instant, under the identifier
in the table of responses: `Stats` grows by one when no response was stored
for the identifier and is unchanged when one was. -/
theorem putResponse_without_slot (rm : ResponseManager) (now : ℤ) (response : ResponseData)
    (echoID : GoString) (hecho : mapIndex response "echo" = some (.string echoID))
    (hnone : rm.responseChans.Load echoID = none) :
    (PutResponse rm now response).1 = .returned none ∧
    (PutResponse rm now response).2.responseChans = rm.responseChans ∧
    (PutResponse rm now response).2.channels = rm.channels ∧
    (PutResponse rm now response).2.responses = rm.responses.Store echoID ⟨response, now⟩ ∧
    (PutResponse rm now response).2.responses.Load echoID = some ⟨response, now⟩ ∧
    Stats (PutResponse rm now response).2 =
      if (rm.responses.Load echoID).isSome then Stats rm else Stats rm + 1 := by
  have hput : PutResponse rm now response =
      (.returned none, { rm with responses := rm.responses.Store echoID ⟨response, now⟩ }) := by
    simp [PutResponse, hecho, hnone]
  rw [hput]
  refine ⟨rfl, rfl, rfl, rfl, SyncMap.load_store_self _ _ _, ?_⟩
  simp only [Stats_eq_length]
  exact SyncMap.length_store _ _ _

/-- Instance of C9 (amended): a delivery for `req-1` to a manager where
nothing is registered. -/
theorem putResponse_without_slot_witness :
    Stats (PutResponse (NewResponseManager 30000000000) 5 sampleResponse).2 =
      if ((NewResponseManager 30000000000).responses.Load "req-1").isSome
      then Stats (NewResponseManager 30000000000)
      else Stats (NewResponseManager 30000000000) + 1 :=
  (putResponse_without_slot (NewResponseManager 30000000000) 5 sampleResponse "req-1"
    rfl rfl).2.2.2.2.2

/-- C9 (as stated) fails. After `req-1` is registered and its wait is
cancelled, the identifier has no pending slot and `Stats` is 0; a delivery for
it then leaves `Stats` at 1. After a first delivery, a second delivery replaces
the stored response. -/
theorem putResponse_stats_counterexample :
    (∃ rm, GetResponse_select registeredManager "req-1" 0 .ctxDone
        = some (.error "请求超时或取消，request_id: req-1", rm) ∧
      rm.responseChans.Load "req-1" = none ∧
      Stats rm = 0 ∧
      Stats (PutResponse rm 5 sampleResponse).2 = 1) ∧
    (PutResponse registeredManager 5 sampleResponse).2.responses
      = [(GoString.ofString "req-1", ⟨sampleResponse, 5⟩)] ∧
    (PutResponse (PutResponse registeredManager 5 sampleResponse).2 6 sampleResponse).2.responses
      = [(GoString.ofString "req-1", ⟨sampleResponse, 6⟩)] :=
  ⟨⟨_, rfl, rfl, rfl, rfl⟩, rfl, rfl⟩

theorem SyncMap.load_delete_other {α : Type} (m : SyncMap α) (k k' : GoString) (h : k' ≠ k) :
    (m.Delete k).Load k' = m.Load k' := by
  induction m with
  | nil => rfl
  | cons x rest ih =>
    obtain ⟨k'', v⟩ := x
    by_cases h1 : k = k''
    · subst h1
      simp [SyncMap.Delete, SyncMap.Load, h, ih]
    · by_cases h2 : k' = k'' <;> simp [SyncMap.Delete, SyncMap.Load, h1, h2, ih]

theorem SyncMap.load_delete_none {α : Type} (m : SyncMap α) (k k' : GoString)
    (h : m.Load k' = none) : (m.Delete k).Load k' = none := by
  by_cases hk : k' = k
  · subst hk
    exact SyncMap.load_delete_self _ _
  · rw [SyncMap.load_delete_other _ _ _ hk, h]

theorem SyncMap.mem_of_load {α : Type} (m : SyncMap α) (k : GoString) (v : α)
    (h : m.Load k = some v) : (k, v) ∈ m := by
  induction m with
  | nil => simp [SyncMap.Load] at h
  | cons x rest ih =>
    obtain ⟨k', v'⟩ := x
    by_cases hk : k = k'
    · subst hk
      simp [SyncMap.Load] at h
      simp [h]
    · simp only [SyncMap.Load, hk, if_false] at h
      exact List.mem_cons_of_mem _ (ih h)

theorem SyncMap.load_of_mem_distinct {α : Type} (m : SyncMap α) (k : GoString) (v w : α)
    (hd : m.KeysDistinct) (h : m.Load k = some v) (hw : (k, w) ∈ m) : w = v := by
  induction m with
  | nil => simp at hw
  | cons x rest ih =>
    obtain ⟨k', v'⟩ := x
    simp only [SyncMap.KeysDistinct, List.pairwise_cons] at hd
    by_cases hk : k = k'
    · subst hk
      simp [SyncMap.Load] at h
      rcases List.mem_cons.mp hw with hw | hw
      · simp only [Prod.mk.injEq, true_and] at hw
        rw [hw, h]
      · exact absurd rfl (hd.1 (k, w) hw)
    · simp only [SyncMap.Load, hk, if_false] at h
      rcases List.mem_cons.mp hw with hw | hw
      · simp only [Prod.mk.injEq] at hw
        exact absurd hw.1 hk
      · exact ih hd.2 h hw

theorem range_load_none (now hb : ℤ) (l : List (GoString × Response)) (m : SyncMap Response)
    (c : ℕ) (id : GoString) (h : m.Load id = none) :
    (cleanTimeoutResponses_range now hb l m c).1.Load id = none := by
  induction l generalizing m c with
  | nil => exact h
  | cons x rest ih =>
    obtain ⟨k, r⟩ := x
    simp only [cleanTimeoutResponses_range]
    split_ifs
    · exact ih _ _ (SyncMap.load_delete_none _ _ _ h)
    · exact ih _ _ h

theorem range_load_old (now hb : ℤ) (l : List (GoString × Response)) (m : SyncMap Response)
    (c : ℕ) (id : GoString) (h : ∃ e ∈ l, e.1 = id ∧ now - e.2.Timestamp > hb) :
    (cleanTimeoutResponses_range now hb l m c).1.Load id = none := by
  induction l generalizing m c with
  | nil => simp at h
  | cons x rest ih =>
    obtain ⟨k, r⟩ := x
    obtain ⟨e, he, hid, hold⟩ := h
    simp only [cleanTimeoutResponses_range]
    rcases List.mem_cons.mp he with he | he
    · subst he
      simp only at hid hold
      subst hid
      rw [if_pos hold]
      exact range_load_none _ _ _ _ _ _ (SyncMap.load_delete_self _ _)
    · split_ifs
      · exact ih _ _ ⟨e, he, hid, hold⟩
      · exact ih _ _ ⟨e, he, hid, hold⟩

theorem range_load_young (now hb : ℤ) (l : List (GoString × Response)) (m : SyncMap Response)
    (c : ℕ) (id : GoString) (h : ∀ e ∈ l, e.1 = id → ¬ now - e.2.Timestamp > hb) :
    (cleanTimeoutResponses_range now hb l m c).1.Load id = m.Load id := by
  induction l generalizing m c with
  | nil => rfl
  | cons x rest ih =>
    obtain ⟨k, r⟩ := x
    have hrest : ∀ e ∈ rest, e.1 = id → ¬ now - e.2.Timestamp > hb :=
      fun e he => h e (List.mem_cons_of_mem _ he)
    simp only [cleanTimeoutResponses_range]
    split_ifs with hold
    · have hk : id ≠ k := fun hh => h (k, r) (List.mem_cons_self _ _) hh.symm hold
      rw [ih _ _ hrest, SyncMap.load_delete_other _ _ _ hk]
    · exact ih _ _ hrest

theorem range_count (now hb : ℤ) (l : List (GoString × Response)) (m : SyncMap Response)
    (c : ℕ) :
    (cleanTimeoutResponses_range now hb l m c).2
      = c + (l.filter (fun e => decide (now - e.2.Timestamp > hb))).length := by
  induction l generalizing m c with
  | nil => rfl
  | cons x rest ih =>
    obtain ⟨k, r⟩ := x
    simp only [cleanTimeoutResponses_range]
    split_ifs with hold
    · rw [ih]
      simp [List.filter, hold]
      omega
    · rw [ih]
      simp [List.filter, hold]

/-- C11 (amended). The sweep works on the stored responses, not on the pending
slots: run at the instant `now`, it leaves every pending slot and every
channel as it was, so a registered identifier that is neither delivered nor
cancelled is still pending after it. It removes from the table of responses
every response stored more than one heartbeat interval before `now`, keeps
every younger one, and counts the responses it found too old. -/
theorem sweep_leaves_pending (rm : ResponseManager) (now : ℤ) :
    (cleanTimeoutResponses rm now).1.responseChans = rm.responseChans ∧
    (cleanTimeoutResponses rm now).1.channels = rm.channels ∧
    (∀ id r, rm.responses.Load id = some r → now - r.Timestamp > rm.heartbeatInterval →
      (cleanTimeoutResponses rm now).1.responses.Load id = none) ∧
    (∀ id r, rm.responses.KeysDistinct → rm.responses.Load id = some r →
      ¬ now - r.Timestamp > rm.heartbeatInterval →
      (cleanTimeoutResponses rm now).1.responses.Load id = some r) ∧
    (cleanTimeoutResponses rm now).2
      = (rm.responses.filter
          (fun e => decide (now - e.2.Timestamp > rm.heartbeatInterval))).length := by
  refine ⟨rfl, rfl, ?_, ?_, ?_⟩
  · intro id r hload hold
    exact range_load_old _ _ _ _ _ _ ⟨(id, r), SyncMap.mem_of_load _ _ _ hload, rfl, hold⟩
  · intro id r hd hload hyoung
    have h : ∀ e ∈ rm.responses, e.1 = id → ¬ now - e.2.Timestamp > rm.heartbeatInterval := by
      intro e he hid
      obtain ⟨k, w⟩ := e
      simp only at hid
      subst hid
      rw [SyncMap.load_of_mem_distinct _ _ _ _ hd hload he]
      exact hyoung
    simp only [cleanTimeoutResponses]
    rw [range_load_young _ _ _ _ _ _ h, hload]
  · simp [cleanTimeoutResponses, range_count]

/-- Instance of C11 (amended): the response stored at the instant 5 is removed
by a sweep later than 5 plus the interval and kept by a sweep at 5 plus the
interval. -/
theorem sweep_leaves_pending_witness :
    (cleanTimeoutResponses storedManager 30000000006).1.responses.Load "req-1" = none ∧
    (cleanTimeoutResponses storedManager 30000000005).1.responses.Load "req-1"
      = some ⟨sampleResponse, 5⟩ :=
  ⟨(sweep_leaves_pending storedManager 30000000006).2.2.1 "req-1" ⟨sampleResponse, 5⟩ rfl
      (by decide),
   (sweep_leaves_pending storedManager 30000000005).2.2.2.1 "req-1" ⟨sampleResponse, 5⟩
      (by simp [SyncMap.KeysDistinct, storedManager, PutResponse, sampleResponse, mapIndex,
        NewResponseManager, SyncMap.Store, SyncMap.Load]) rfl (by decide)⟩

/-- C11 (as stated) fails. The identifier `req-1` is registered and neither
delivered nor cancelled; a sweep run a thousand seconds later, the interval
being thirty seconds, finds nothing to remove and `req-1` is still pending. -/
theorem sweep_pending_counterexample :
    registeredManager.heartbeatInterval = 30000000000 ∧
    registeredManager.responseChans.Load "req-1" = some 0 ∧
    (cleanTimeoutResponses registeredManager 1000000000000).2 = 0 ∧
    (cleanTimeoutResponses registeredManager 1000000000000).1.responseChans.Load "req-1"
      = some 0 :=
  ⟨rfl, rfl, rfl, rfl⟩


/-- C12. On a connected client, a `SendMessage` whose write fails returns the
error of the write, after one call of `WriteMessage` and no more, and leaves
the client disconnected: the connection is closed and the handle cleared. A
`SendMessage` whose write succeeds returns no error, after one call of
`WriteMessage`, and leaves the handle and the closed connections as they were. -/
theorem sendMessage_connected (s : ClientState) (conn : Conn) (message : Payload)
    (hconn : s.client.conn = some conn) :
    (∀ err,
      (SendMessage s message (some err)).1 = some err ∧
      (SendMessage s message (some err)).2.client.conn = none ∧
      (SendMessage s message (some err)).2.effects.closed = s.effects.closed ++ [conn] ∧
      (SendMessage s message (some err)).2.effects.writes
        = s.effects.writes ++ [⟨conn, .TextMessage message, some err⟩]) ∧
    ((SendMessage s message none).1 = none ∧
      (SendMessage s message none).2.client = s.client ∧
      (SendMessage s message none).2.effects.closed = s.effects.closed ∧
      (SendMessage s message none).2.effects.writes
        = s.effects.writes ++ [⟨conn, .TextMessage message, none⟩]) := by
  constructor
  · intro err
    simp [SendMessage, hconn]
  · simp [SendMessage, hconn]

/-- Instance of C12 at the connected client: a failing write. -/
theorem sendMessage_connected_witness :
    (SendMessage connectedClient inboundPayload (some "broken pipe")).1 = some "broken pipe" ∧
    (SendMessage connectedClient inboundPayload (some "broken pipe")).2.client.conn = none :=
  ⟨((sendMessage_connected connectedClient 0 inboundPayload rfl).1 "broken pipe").1,
   ((sendMessage_connected connectedClient 0 inboundPayload rfl).1 "broken pipe").2.1⟩

/-- C13. From a connected state, a heartbeat tick whose ping write fails
leaves the client disconnected, the connection closed. In a disconnected state
`SendMessage`, and `SendMessageBase` of an envelope that `ToJSON` encodes,
return the not-connected error and leave the state, the writes among it, as it
was; `SendMessageBase` of an envelope that `ToJSON` does not encode returns the
error of the conversion and leaves the state as it was. -/
theorem heartbeat_failure_then_send (s : ClientState) :
    (∀ conn err, s.client.conn = some conn →
      (heartbeatTick s (some err)).client.conn = none ∧
      (heartbeatTick s (some err)).effects.closed = s.effects.closed ++ [conn]) ∧
    (s.client.conn = none →
      (∀ message write,
        SendMessage s message write = (some "WebSocket not connected", s)) ∧
      (∀ msg jsonStr write, ToJSON msg = .ok jsonStr →
        SendMessageBase s msg write = (some "WebSocket not connected", s)) ∧
      (∀ msg e write, ToJSON msg = .error e →
        SendMessageBase s msg write = (some "failed to convert message to JSON", s))) := by
  constructor
  · intro conn err hconn
    simp [heartbeatTick, hconn]
  · intro hnone
    refine ⟨?_, ?_, ?_⟩
    · intro message write
      simp [SendMessage, hnone]
    · intro msg jsonStr write henc
      simp [SendMessageBase, henc, SendMessage, hnone]
    · intro msg e write henc
      simp [SendMessageBase, henc]

/-- Instance of C13: the ping of the connected client fails, and the sends that
follow are refused. -/
theorem heartbeat_failure_then_send_witness :
    (heartbeatTick connectedClient (some "broken pipe")).client.conn = none ∧
    SendMessage (heartbeatTick connectedClient (some "broken pipe")) inboundPayload none
      = (some "WebSocket not connected", heartbeatTick connectedClient (some "broken pipe")) ∧
    SendMessageBase (heartbeatTick connectedClient (some "broken pipe")) listEnvelope none
      = (some "WebSocket not connected", heartbeatTick connectedClient (some "broken pipe")) :=
  ⟨((heartbeat_failure_then_send connectedClient).1 0 "broken pipe" rfl).1,
   ((heartbeat_failure_then_send (heartbeatTick connectedClient (some "broken pipe"))).2
      rfl).1 inboundPayload none,
   ((heartbeat_failure_then_send (heartbeatTick connectedClient (some "broken pipe"))).2
      rfl).2.1 listEnvelope _ none rfl⟩

/-- C14 (amended). A first `Close`, on a client whose channel `done` is open,
returns normally, closes `done`, closes the live connection if any and clears
the handle. A second `Close` does not return: it panics on the closed channel.
It changes nothing, so the state after two calls is the state after one. -/
theorem close_twice (s : ClientState) (hdone : s.client.done = false) :
    (Close s).1 = .returned ∧
    (Close s).2.client.done = true ∧
    (Close s).2.client.conn = none ∧
    (Close s).2.effects.closed = s.effects.closed ++ s.client.conn.toList ∧
    (Close (Close s).2).1 = .panicked "close of closed channel" ∧
    (Close (Close s).2).2 = (Close s).2 := by
  cases hc : s.client.conn <;> simp [Close, hdone, hc]

/-- Instance of C14 (amended) at the connected client. -/
theorem close_twice_witness :
    (Close connectedClient).1 = .returned ∧
    (Close (Close connectedClient).2).1 = .panicked "close of closed channel" :=
  ⟨(close_twice connectedClient rfl).1, (close_twice connectedClient rfl).2.2.2.2.1⟩

/-- C14 (as stated) fails. On the connected client, and on a client never
connected, the second `Close` panics. -/
theorem close_twice_counterexample :
    (Close (Close connectedClient).2).1 ≠ .returned ∧
    (Close (Close (NewClient "ws://localhost:8090/ws" "telegram" "")).2).1 ≠ .returned := by
  decide

theorem runOps_closed (s : ClientState) (hdone : s.client.done = true)
    (hconn : s.client.conn = none) (ops : List ClientOp)
    (hops : ∀ op ∈ ops, op.isConnect = false) : runOps s ops = s := by
  induction ops with
  | nil => rfl
  | cons op rest ih =>
    have hrest : ∀ op ∈ rest, op.isConnect = false :=
      fun o ho => hops o (List.mem_cons_of_mem _ ho)
    have hop := hops op (List.mem_cons_self _ _)
    have hstep : op.apply s = s := by
      cases op with
      | connect dial => simp [ClientOp.isConnect] at hop
      | listen input => simp [ClientOp.apply, Listen_iteration, hdone]
      | tick ping => simp [ClientOp.apply, heartbeatTick, hconn]
      | send message write => simp [ClientOp.apply, SendMessage, hconn]
    simp only [runOps, hstep]
    exact ih hrest

/-- C15 (amended). After a `Close` that returned, and as long as `Connect` is
not called again, every send fails: in every state reached from the closed
client by iterations of `Listen`, heartbeat ticks and calls of `SendMessage`,
`SendMessage` returns the not-connected error and leaves the state, the writes
among it, as it was. -/
theorem send_after_close (s : ClientState) (hdone : s.client.done = false)
    (ops : List ClientOp) (hops : ∀ op ∈ ops, op.isConnect = false)
    (message : Payload) (write : Option String) :
    (Close s).1 = .returned ∧
    SendMessage (runOps (Close s).2 ops) message write
      = (some "WebSocket not connected", runOps (Close s).2 ops) ∧
    (runOps (Close s).2 ops).effects.writes = (Close s).2.effects.writes := by
  have h1 : (Close s).2.client.done = true := by
    cases hc : s.client.conn <;> simp [Close, hdone, hc]
  have h2 : (Close s).2.client.conn = none := by
    cases hc : s.client.conn <;> simp [Close, hdone, hc]
  have h3 : (Close s).1 = .returned := by
    cases hc : s.client.conn <;> simp [Close, hdone, hc]
  rw [runOps_closed _ h1 h2 ops hops]
  refine ⟨h3, ?_, rfl⟩
  simp [SendMessage, h2]

/-- Instance of C15 (amended): after the connected client is closed, a tick,
an iteration of `Listen` and a send, a further send is refused. -/
theorem send_after_close_witness :
    SendMessage (runOps (Close connectedClient).2
        [.tick none, .listen ⟨none, .ok inboundPayload⟩, .send inboundPayload none])
        inboundPayload none
      = (some "WebSocket not connected", runOps (Close connectedClient).2
          [.tick none, .listen ⟨none, .ok inboundPayload⟩, .send inboundPayload none]) :=
  (send_after_close connectedClient rfl
    [.tick none, .listen ⟨none, .ok inboundPayload⟩, .send inboundPayload none]
    (by decide) inboundPayload none).2.1

/-- C15 (as stated) fails. The connected client is closed and `Connect` is
called again; the dial succeeds, and the `SendMessage` that follows returns no
error and writes the message on the new connection. Likewise an iteration of
`Listen` that had read a nil handle before the `Close` reconnects after it. -/
theorem send_after_close_counterexample :
    (Listen_body (Close (NewClient "ws://localhost:8090/ws" "telegram" "")).2 none
        ⟨none, .ok inboundPayload⟩).client.conn = some 0 ∧
    (Close connectedClient).1 = .returned ∧
    (SendMessage (runOps (Close connectedClient).2 [.connect none]) inboundPayload none).1
      = none ∧
    (SendMessage (runOps (Close connectedClient).2 [.connect none]) inboundPayload
        none).2.effects.writes
      = [⟨1, .TextMessage inboundPayload, none⟩] :=
  ⟨rfl, rfl, rfl, rfl⟩

/-- C16 (amended). For every inbound payload that decodes to an envelope, the
installed handler, if any, is called exactly once with the envelope, whether or
not the envelope matches an outstanding correlation id: the client holds no
correlation table and delivers to none. A payload that fails to decode calls
nothing. Nothing else of the state changes. -/
theorem handleReceivedMessage_dispatch (s : ClientState) (data : Payload) :
    (∀ msg, FromJSON data = .ok msg →
      (∀ handler, s.client.messageHandler = some handler →
        handleReceivedMessage s data =
          { s with effects :=
              { s.effects with handled := s.effects.handled ++ [(handler, msg)] } }) ∧
      (s.client.messageHandler = none → handleReceivedMessage s data = s)) ∧
    (∀ e, FromJSON data = .error e → handleReceivedMessage s data = s) := by
  constructor
  · intro msg hmsg
    constructor
    · intro handler hh
      simp [handleReceivedMessage, hmsg, hh]
    · intro hh
      simp [handleReceivedMessage, hmsg, hh]
  · intro e he
    simp [handleReceivedMessage, he]

/-- Instance of C16 (amended): the inbound payload on the connected client. -/
theorem handleReceivedMessage_dispatch_witness :
    handleReceivedMessage connectedClient inboundPayload =
      { connectedClient with effects :=
          { connectedClient.effects with
              handled := connectedClient.effects.handled ++ [(7, inboundEnvelope)] } } :=
  ((handleReceivedMessage_dispatch connectedClient inboundPayload).1 inboundEnvelope rfl).1 7 rfl

/-- C16 (as stated) fails. The identifier `req-1` has a pending slot in the
correlation table, and an envelope with message id `req-1` comes in: the
handler is called with it, in an iteration of `Listen` as in
`handleReceivedMessage`. -/
theorem dispatch_pending_counterexample :
    registeredManager.responseChans.Load "req-1" = some 0 ∧
    FromJSON inboundPayload = .ok inboundEnvelope ∧
    inboundEnvelope.MessageInfo.MessageID = "req-1" ∧
    (handleReceivedMessage connectedClient inboundPayload).effects.handled
      = [(7, inboundEnvelope)] ∧
    (Listen_iteration connectedClient ⟨none, .ok inboundPayload⟩).map (·.effects.handled)
      = some [(7, inboundEnvelope)] :=
  ⟨rfl, rfl, rfl, rfl, rfl⟩


/-- C17 (amended). `NewSimpleTextMessage` and `NewGroupTextMessage` produce an
envelope whose content is a segment list of one text segment, which satisfies
the content invariant. `NewMessageBase` puts the segments it is given into a
segment list as they are: the envelope satisfies the content invariant exactly
when none of the given segments is a segment list. -/
theorem constructors_content (now : ℚ) (platform messageID userID groupID text : GoString)
    (userInfo : Option UserInfo) (groupInfo : Option GroupInfo)
    (segments : Slice MessageSegment) :
    (NewSimpleTextMessage now platform messageID userID text).MessageSegment
      = NewSegList (some [NewTextSegment text]) ∧
    ContentInvariant (NewSimpleTextMessage now platform messageID userID text) ∧
    (NewGroupTextMessage now platform messageID userID groupID text).MessageSegment
      = NewSegList (some [NewTextSegment text]) ∧
    ContentInvariant (NewGroupTextMessage now platform messageID userID groupID text) ∧
    (NewMessageBase now platform messageID userInfo groupInfo segments).MessageSegment
      = NewSegList segments ∧
    (ContentInvariant (NewMessageBase now platform messageID userInfo groupInfo segments) ↔
      ∀ s ∈ segments.getD [], s.Type_ ≠ "seglist") := by
  refine ⟨rfl, ?_, rfl, ?_, rfl, ?_⟩
  · simp [ContentInvariant, NewSimpleTextMessage, NewMessageBase, NewSegList, NewTextSegment,
      MessageSegment.toPair]
  · simp [ContentInvariant, NewGroupTextMessage, NewMessageBase, NewSegList, NewTextSegment,
      MessageSegment.toPair]
  · cases segments with
    | none => simp [ContentInvariant, NewMessageBase, NewSegList]
    | some xs =>
      simp only [ContentInvariant, NewMessageBase, NewSegList, ne_eq, not_true_eq_false,
        false_or, Option.getD_some]
      constructor
      · intro h s hs
        exact h (s.toPair) (List.mem_map_of_mem _ hs)
      · intro h p hp
        obtain ⟨s, hs, rfl⟩ := List.mem_map.mp hp
        exact h s hs

/-- Instance of C17 (amended): a text and an image segment given to
`NewMessageBase`. -/
theorem constructors_content_witness :
    ContentInvariant (NewMessageBase 1700000000 "x" "m1" none none
      (some [NewTextSegment "a", NewImageSegment "b"])) :=
  (constructors_content 1700000000 "x" "m1" "" "" "" none none
    (some [NewTextSegment "a", NewImageSegment "b"])).2.2.2.2.2.mpr
    (by simp [NewTextSegment, NewImageSegment])

/-- C17 (as stated) fails. `NewMessageBase` given one segment that is a segment
list produces a segment list that contains a segment list. -/
theorem nested_seglist_counterexample :
    nestedEnvelope.MessageSegment
      = ⟨"seglist", .segments [("seglist", .segments [("text", .string "a")])]⟩ ∧
    ¬ ContentInvariant nestedEnvelope := by
  refine ⟨rfl, ?_⟩
  simp [ContentInvariant, nestedEnvelope, NewMessageBase, NewSegList, NewTextSegment,
    MessageSegment.toPair]

theorem chatIDFilter_loop_eq (isWhitelist : Bool) (id : ℤ) (l : List ℤ) :
    chatIDFilter_loop isWhitelist id l = if id ∈ l then isWhitelist else !isWhitelist := by
  induction l with
  | nil => simp [chatIDFilter_loop]
  | cons x rest ih =>
    by_cases h : x = id
    · simp [chatIDFilter_loop, h]
    · have h' : ¬ id = x := fun hh => h hh.symm
      simp [chatIDFilter_loop, h, h', ih]

/-- C18. `chatIDFilter` decides by membership in the list of the filter: when
the mode is `"whitelist"` it returns true exactly when the id is in the list;
for every other mode it returns true exactly when the id is not in the list.
An empty whitelist rejects every chat, an empty list under any other mode
accepts every chat. -/
theorem chatIDFilter_membership (filter : config.MessageFilter) (id : ℤ) :
    (filter.Mode = "whitelist" → (chatIDFilter filter id = true ↔ id ∈ filter.List)) ∧
    (filter.Mode ≠ "whitelist" → (chatIDFilter filter id = true ↔ id ∉ filter.List)) ∧
    chatIDFilter ⟨"whitelist", []⟩ id = false ∧
    (filter.Mode ≠ "whitelist" → chatIDFilter ⟨filter.Mode, []⟩ id = true) := by
  refine ⟨?_, ?_, ?_, ?_⟩
  · intro h
    simp [chatIDFilter, chatIDFilter_loop_eq, h]
  · intro h
    simp [chatIDFilter, chatIDFilter_loop_eq, h]
  · simp [chatIDFilter, chatIDFilter_loop]
  · intro h
    simp [chatIDFilter, chatIDFilter_loop, h]

/-- Instance of C18: a whitelist and a blacklist of the chats 1 and 2, an
unknown mode, and the empty lists. -/
theorem chatIDFilter_membership_witness :
    (chatIDFilter ⟨"whitelist", [1, 2]⟩ 2 = true ↔ (2 : ℤ) ∈ [1, 2]) ∧
    (chatIDFilter ⟨"blacklist", [1, 2]⟩ 3 = true ↔ (3 : ℤ) ∉ [1, 2]) ∧
    chatIDFilter ⟨"", []⟩ 3 = true :=
  ⟨(chatIDFilter_membership ⟨"whitelist", [1, 2]⟩ 2).1 rfl,
   (chatIDFilter_membership ⟨"blacklist", [1, 2]⟩ 3).2.1 (by decide),
   (chatIDFilter_membership ⟨"", []⟩ 3).2.2.2 (by decide)⟩

theorem MessageFilter_banned_eq (user : tgbotapi.User) (l : List ℤ) :
    MessageFilter_banned (some user) l = some (decide (user.ID ∈ l)) := by
  induction l with
  | nil => simp [MessageFilter_banned]
  | cons x rest ih =>
    by_cases h : user.ID = x
    · simp [MessageFilter_banned, h]
    · simp [MessageFilter_banned, h, ih]

/-- C19. For every configuration and every message with a sender,
`MessageFilter` returns false when the sender is among the banned users,
whatever the chat filters say; for a sender that is not banned it returns what
`chatIDFilter` returns on the chat id, with the filter of private chats when
the chat is private and the filter of groups otherwise. -/
theorem messageFilter_banned_first (filters : config.MessageFilterConfig)
    (message : tgbotapi.Message) (user : tgbotapi.User) (hfrom : message.From = some user) :
    (user.ID ∈ filters.BannedUsers → MessageFilter filters message = some false) ∧
    (user.ID ∉ filters.BannedUsers →
      MessageFilter filters message =
        some (chatIDFilter (if message.Chat.IsPrivate then filters.Private else filters.Groups)
          message.Chat.ID)) := by
  constructor
  · intro h
    simp [MessageFilter, hfrom, MessageFilter_banned_eq, h]
  · intro h
    simp [MessageFilter, hfrom, MessageFilter_banned_eq, h]

/-- Instance of C19: the banned user 666 in a whitelisted group, and the user 5
in a private chat that is not on the blacklist. -/
theorem messageFilter_banned_first_witness :
    MessageFilter sampleFilters ⟨some ⟨666⟩, ⟨100, "group"⟩⟩ = some false ∧
    MessageFilter sampleFilters ⟨some ⟨5⟩, ⟨5, "private"⟩⟩
      = some (chatIDFilter sampleFilters.Private 5) :=
  ⟨(messageFilter_banned_first sampleFilters ⟨some ⟨666⟩, ⟨100, "group"⟩⟩ ⟨666⟩ rfl).1
      (by decide),
   (messageFilter_banned_first sampleFilters ⟨some ⟨5⟩, ⟨5, "private"⟩⟩ ⟨5⟩ rfl).2
      (by decide)⟩

end Maibot
